import Mathlib

/-!
Verification development for the assembly-line visual quality-verification
pipeline (SORT-style multi-object tracker, per-track inventory ledger,
disappearance classifier, signal-light priority controller, alert-clip
recorder with pre-roll buffer, and the detector frame loop).

Numeric box coordinates are modelled with `ℚ`; the Kalman filter internals
(which use floating point and square roots) are abstracted as an arbitrary
state type `K` with an oracle interface, so every theorem quantifying over
the oracle covers the concrete filter.  Container/ledger state is modelled
with total functions used as maps (Python dict/Counter with default 0 /
False semantics).
-/

/-! ## Boxes and IOU (src/core/tracker.py, `iou_batch`) -/

structure Box where
  x1 : ℚ
  y1 : ℚ
  x2 : ℚ
  y2 : ℚ
deriving DecidableEq, Repr

/-- A valid axis-aligned box: positive width and height. -/
def Box.Valid (b : Box) : Prop := b.x1 < b.x2 ∧ b.y1 < b.y2

def Box.area (b : Box) : ℚ := (b.x2 - b.x1) * (b.y2 - b.y1)

/-- Scalar intersection-over-union of two boxes, the per-entry formula of
`iou_batch`: clamp the intersection width/height at 0, then
`wh / (areaA + areaB - wh)`. -/
def iouPair (a b : Box) : ℚ :=
  let xx1 := max a.x1 b.x1
  let yy1 := max a.y1 b.y1
  let xx2 := min a.x2 b.x2
  let yy2 := min a.y2 b.y2
  let w := max 0 (xx2 - xx1)
  let h := max 0 (yy2 - yy1)
  let wh := w * h
  wh / (a.area + b.area - wh)

/-- `iou_batch(bb_test, bb_gt)` as a matrix: row index ranges over `bb_test`
(the detections), column index over `bb_gt` (the trackers). -/
def iou_batch (dets trks : List Box) : List (List ℚ) :=
  dets.map fun d => trks.map fun t => iouPair d t

/-- Two boxes are disjoint: they share no interior point (separated on the
x-axis or on the y-axis). -/
def BoxDisjoint (a b : Box) : Prop :=
  a.x2 ≤ b.x1 ∨ b.x2 ≤ a.x1 ∨ a.y2 ≤ b.y1 ∨ b.y2 ≤ a.y1

lemma iouPair_comm (a b : Box) : iouPair a b = iouPair b a := by
  unfold iouPair
  rw [max_comm a.x1 b.x1, max_comm a.y1 b.y1, min_comm a.x2 b.x2,
    min_comm a.y2 b.y2, add_comm a.area b.area]

lemma iouPair_self (a : Box) (h : a.Valid) : iouPair a a = 1 := by
  obtain ⟨hx, hy⟩ := h
  unfold iouPair
  simp only [max_self, min_self]
  have hw : max 0 (a.x2 - a.x1) = a.x2 - a.x1 := max_eq_right (by linarith)
  have hh : max 0 (a.y2 - a.y1) = a.y2 - a.y1 := max_eq_right (by linarith)
  rw [hw, hh]
  have harea : a.area = (a.x2 - a.x1) * (a.y2 - a.y1) := rfl
  have hpos : (0 : ℚ) < (a.x2 - a.x1) * (a.y2 - a.y1) :=
    mul_pos (by linarith) (by linarith)
  rw [harea]
  have : (a.x2 - a.x1) * (a.y2 - a.y1) + (a.x2 - a.x1) * (a.y2 - a.y1) -
      (a.x2 - a.x1) * (a.y2 - a.y1) = (a.x2 - a.x1) * (a.y2 - a.y1) := by ring
  rw [this, div_self (ne_of_gt hpos)]

lemma iouPair_of_disjoint (a b : Box) (h : BoxDisjoint a b) :
    iouPair a b = 0 := by
  unfold iouPair
  dsimp only
  rcases h with h | h | h | h
  · have : max 0 (min a.x2 b.x2 - max a.x1 b.x1) = 0 := by
      apply max_eq_left
      have h1 : min a.x2 b.x2 ≤ a.x2 := min_le_left _ _
      have h2 : b.x1 ≤ max a.x1 b.x1 := le_max_right _ _
      linarith
    rw [this, zero_mul, zero_div]
  · have : max 0 (min a.x2 b.x2 - max a.x1 b.x1) = 0 := by
      apply max_eq_left
      have h1 : min a.x2 b.x2 ≤ b.x2 := min_le_right _ _
      have h2 : a.x1 ≤ max a.x1 b.x1 := le_max_left _ _
      linarith
    rw [this, zero_mul, zero_div]
  · have : max 0 (min a.y2 b.y2 - max a.y1 b.y1) = 0 := by
      apply max_eq_left
      have h1 : min a.y2 b.y2 ≤ a.y2 := min_le_left _ _
      have h2 : b.y1 ≤ max a.y1 b.y1 := le_max_right _ _
      linarith
    rw [this, mul_zero, zero_div]
  · have : max 0 (min a.y2 b.y2 - max a.y1 b.y1) = 0 := by
      apply max_eq_left
      have h1 : min a.y2 b.y2 ≤ b.y2 := min_le_right _ _
      have h2 : a.y1 ≤ max a.y1 b.y1 := le_max_left _ _
      linarith
    rw [this, mul_zero, zero_div]

/-- C9: for all valid axis-aligned box pairs, IOU is symmetric, self-IOU is
exactly 1, and disjoint boxes have IOU exactly 0. -/
theorem iou_symm_self_disjoint (a b : Box) (ha : a.Valid) (hb : b.Valid) :
    iouPair a b = iouPair b a ∧ iouPair a a = 1 ∧
      (BoxDisjoint a b → iouPair a b = 0) := by
  refine ⟨iouPair_comm a b, iouPair_self a ha, fun h => iouPair_of_disjoint a b h⟩

/-- C9 witness: evaluates the theorem on two concrete disjoint unit boxes. -/
theorem iou_symm_self_disjoint_witness :
    (Box.mk 0 0 1 1).Valid ∧ (Box.mk 2 0 3 1).Valid ∧
      (iouPair (Box.mk 0 0 1 1) (Box.mk 2 0 3 1) =
          iouPair (Box.mk 2 0 3 1) (Box.mk 0 0 1 1) ∧
        iouPair (Box.mk 0 0 1 1) (Box.mk 0 0 1 1) = 1 ∧
        (BoxDisjoint (Box.mk 0 0 1 1) (Box.mk 2 0 3 1) →
          iouPair (Box.mk 0 0 1 1) (Box.mk 2 0 3 1) = 0)) :=
  ⟨⟨by norm_num, by norm_num⟩, ⟨by norm_num, by norm_num⟩,
    iou_symm_self_disjoint _ _ ⟨by norm_num, by norm_num⟩ ⟨by norm_num, by norm_num⟩⟩

/-! ## Inventory ledger (src/modules/inventory.py, `InventoryManager`) -/

/-- Per-track record: `achieved` is the current-frame count per class
(Counter, default 0), `completed` the sticky per-class flag (dict keyed by
required classes; reads outside use `.get(..., False)` semantics, so a total
Bool function with default `false` is the faithful model), and the cached
`is_all_completed`. -/
structure TrackRec where
  achieved : String → ℕ
  completed : String → Bool
  is_all_completed : Bool

/-- InventoryManager state: `required` keeps the insertion-ordered
association list of class key to positive required quantity, `names` the
display names, `state` the per-track records, plus the active and
ever-tracked id sets. -/
structure InvState where
  required : List (String × ℕ)
  names : List (String × String)
  state : Int → Option TrackRec
  active_ids : Int → Bool
  ever_tracked_ids : Int → Bool

/-- `_ensure_track`: insert a fresh record (all-zero counts, all-false
completion flags) if the id is unknown. -/
def ensure_track (s : InvState) (tid : Int) : InvState :=
  match s.state tid with
  | some _ => s
  | none =>
      { s with state := fun t =>
          if t = tid then some ⟨fun _ => 0, fun _ => false, false⟩ else s.state t }

/-- The record transformation performed by one iteration of the
`update_for_frame` loop body: overwrite `achieved` with this frame's counts
restricted to required classes, set each still-false `completed` flag whose
requirement is met this frame, and recompute `is_all_completed`.
`frameCounts` is the `items_by_track.get(track_id, Counter())` association
list. -/
def stepRecord (required : List (String × ℕ)) (frameCounts : List (String × ℕ))
    (rec0 : TrackRec) : TrackRec :=
  let achieved' : String → ℕ := fun k =>
    if (required.lookup k).isSome then ((frameCounts.lookup k).getD 0) else 0
  let completed' : String → Bool := fun k =>
    match required.lookup k with
    | some need => rec0.completed k || decide (need ≤ achieved' k)
    | none => rec0.completed k
  let allDone : Bool :=
    if required.isEmpty then true
    else required.all fun kv => completed' kv.1
  ⟨achieved', completed', allDone⟩

/-- One iteration of the `update_for_frame` loop body for a single tracked
id: ensure the record exists, then apply `stepRecord` to it. -/
def updateTrackStep (s : InvState) (tid : Int)
    (frameCounts : List (String × ℕ)) : InvState :=
  let s := ensure_track s tid
  match s.state tid with
  | none => s
  | some rec0 =>
      { s with state := fun t =>
          if t = tid then some (stepRecord s.required frameCounts rec0)
          else s.state t }

/-- `update_for_frame`: fold the per-track step over the tracked ids (only
column 4, the id, of each tracked box row is read by the source), record the
ids in `ever_tracked_ids`, then replace `active_ids` with this frame's ids. -/
def uffBody (itemsByTrack : Int → List (String × ℕ)) (acc : InvState)
    (tid : Int) : InvState :=
  let acc := { acc with ever_tracked_ids := fun t =>
    if t = tid then true else acc.ever_tracked_ids t }
  updateTrackStep acc tid (itemsByTrack tid)

def update_for_frame (s : InvState) (trackedIds : List Int)
    (itemsByTrack : Int → List (String × ℕ)) : InvState :=
  let s' := trackedIds.foldl (uffBody itemsByTrack) s
  { s' with active_ids := fun t => trackedIds.contains t }

structure AlertEvent where
  track_id : Int
  missing : List (String × String)
deriving DecidableEq, Repr

structure DisappearStatus where
  completed_ids : List Int
  incomplete_ids : List Int
deriving DecidableEq, Repr

/-- One iteration of the `handle_disappearance` loop for a single id,
threading the ledger state (which no branch modifies) through along with the
alert and status accumulators. -/
def handleDisappearStep (s : InvState)
    (acc : List AlertEvent × List Int × List Int) (tid : Int) :
    (List AlertEvent × List Int × List Int) × InvState :=
  let (alerts, completedIds, incompleteIds) := acc
  if s.ever_tracked_ids tid = false then (acc, s)
  else
    match s.state tid with
    | none => (acc, s)
    | some info =>
        if info.is_all_completed then
          ((alerts, completedIds ++ [tid], incompleteIds), s)
        else
          let missing := (s.required.filter fun kv => ¬ info.completed kv.1).map
            fun kv => (kv.1, (s.names.lookup kv.1).getD kv.1)
          let alerts' :=
            if missing ≠ [] then alerts ++ [⟨tid, missing⟩] else alerts
          ((alerts', completedIds, incompleteIds ++ [tid]), s)

/-- `handle_disappearance`: classify each reported id as completed or
incomplete (building an alert with the missing-class list for incomplete
ones), skipping ids never returned by the tracker; returns the alerts, the
status, and the ledger state after the call. -/
def handle_disappearance (s : InvState) (disappearedIds : List Int) :
    (List AlertEvent × DisappearStatus) × InvState :=
  let run := disappearedIds.foldl (fun (p : (List AlertEvent × List Int × List Int) × InvState) tid =>
      handleDisappearStep p.2 p.1 tid) (([], [], []), s)
  (((run.1.1), ⟨run.1.2.1, run.1.2.2⟩), run.2)

/-- One frame of ledger input: the reportable track ids and the per-track
item counts. -/
structure LedgerFrame where
  trackedIds : List Int
  items : Int → List (String × ℕ)

def runLedgerFrames (s : InvState) (frames : List LedgerFrame) : InvState :=
  frames.foldl (fun acc f => update_for_frame acc f.trackedIds f.items) s

/-- The requirement table of claim C2. -/
def reqC2 : List (String × ℕ) := [("class1", 2), ("class2", 1)]

def trackAllCompleted (s : InvState) (tid : Int) : Bool :=
  match s.state tid with
  | some r => r.is_all_completed
  | none => false

def trackCompletedFor (s : InvState) (tid : Int) (k : String) : Bool :=
  match s.state tid with
  | some r => r.completed k
  | none => false

lemma handleDisappearStep_state (s : InvState)
    (acc : List AlertEvent × List Int × List Int) (tid : Int) :
    (handleDisappearStep s acc tid).2 = s := by
  obtain ⟨a, b, c⟩ := acc
  unfold handleDisappearStep
  dsimp only
  split
  · rfl
  · split
    · rfl
    · split
      · rfl
      · rfl

lemma foldl_handleDisappear_state (ids : List Int) :
    ∀ p : (List AlertEvent × List Int × List Int) × InvState,
      (ids.foldl (fun p tid => handleDisappearStep p.2 p.1 tid) p).2 = p.2 := by
  induction ids with
  | nil => intro p; rfl
  | cons t ts ih =>
      intro p
      simp only [List.foldl_cons]
      rw [ih, handleDisappearStep_state]

/-- C10: `handle_disappearance` is a pure query on the ledger: the state
returned after the call (per-track records, ever-tracked set, requirement
and name tables, active set) is exactly the input state, for every input
id list. -/
theorem handle_disappearance_pure (s : InvState) (ids : List Int) :
    (handle_disappearance s ids).2 = s := by
  unfold handle_disappearance
  exact foldl_handleDisappear_state ids _

lemma ensure_track_required (s : InvState) (tid : Int) :
    (ensure_track s tid).required = s.required := by
  unfold ensure_track
  split <;> rfl

lemma ensure_track_state_some (s : InvState) (tid : Int) (r : TrackRec)
    (h : s.state tid = some r) : (ensure_track s tid).state tid = some r := by
  unfold ensure_track
  split
  · exact h
  · simp_all

lemma updateTrackStep_required (s : InvState) (tid : Int)
    (fc : List (String × ℕ)) :
    (updateTrackStep s tid fc).required = s.required := by
  unfold updateTrackStep
  dsimp only
  split
  · exact ensure_track_required s tid
  · exact ensure_track_required s tid

lemma stepRecord_completed_mono (required fc : List (String × ℕ))
    (rec0 : TrackRec) (k : String) (h : rec0.completed k = true) :
    (stepRecord required fc rec0).completed k = true := by
  unfold stepRecord
  dsimp only
  cases required.lookup k <;> simp [h]

lemma stepRecord_completed_set (required fc : List (String × ℕ))
    (rec0 : TrackRec) (k : String) (need : ℕ)
    (hlk : required.lookup k = some need)
    (hcnt : need ≤ ((fc.lookup k).getD 0)) :
    (stepRecord required fc rec0).completed k = true := by
  unfold stepRecord
  dsimp only
  rw [hlk]
  simp [hlk, hcnt]

lemma stepRecord_allDone_reqC2 (fc : List (String × ℕ)) (rec0 : TrackRec)
    (h1 : (stepRecord reqC2 fc rec0).completed "class1" = true)
    (h2 : (stepRecord reqC2 fc rec0).completed "class2" = true) :
    (stepRecord reqC2 fc rec0).is_all_completed = true := by
  have : (stepRecord reqC2 fc rec0).is_all_completed =
      ((stepRecord reqC2 fc rec0).completed "class1" &&
        ((stepRecord reqC2 fc rec0).completed "class2" && true)) := rfl
  rw [this, h1, h2]
  rfl

def freshRec : TrackRec := ⟨fun _ => 0, fun _ => false, false⟩

lemma ensure_track_state (s : InvState) (tid : Int) :
    (ensure_track s tid).state tid = some ((s.state tid).getD freshRec) := by
  unfold ensure_track
  split
  · next r h => simp [h]
  · next h => simp [h, freshRec]

lemma ensure_track_state_ne (s : InvState) (tid t : Int) (h : t ≠ tid) :
    (ensure_track s tid).state t = s.state t := by
  unfold ensure_track
  split
  · rfl
  · simp [h]

lemma updateTrackStep_state (s : InvState) (tid : Int)
    (fc : List (String × ℕ)) :
    (updateTrackStep s tid fc).state tid =
      some (stepRecord s.required fc ((s.state tid).getD freshRec)) := by
  unfold updateTrackStep
  dsimp only
  split
  · next h => rw [ensure_track_state] at h; cases h
  · next rec0 h =>
      rw [ensure_track_state] at h
      injection h with h
      simp [← h, ensure_track_required]

lemma updateTrackStep_state_ne (s : InvState) (tid : Int)
    (fc : List (String × ℕ)) (t : Int) (h : t ≠ tid) :
    (updateTrackStep s tid fc).state t = s.state t := by
  unfold updateTrackStep
  dsimp only
  split
  · next _ => exact ensure_track_state_ne s tid t h
  · next rec0 _ =>
      simp only [h, if_false]
      exact ensure_track_state_ne s tid t h

/-- The sticky per-class completion flag is set for track `tid`, class `k`. -/
def CompFlagInv (s : InvState) (tid : Int) (k : String) : Prop :=
  ∃ r, s.state tid = some r ∧ r.completed k = true

/-- Track `tid` has both C2 requirement classes completed and the cached
`is_all_completed` set. -/
def C2Done (s : InvState) (tid : Int) : Prop :=
  ∃ r, s.state tid = some r ∧ r.completed "class1" = true ∧
    r.completed "class2" = true ∧ r.is_all_completed = true

lemma uffBody_required (items : Int → List (String × ℕ)) (acc : InvState)
    (tid : Int) : (uffBody items acc tid).required = acc.required := by
  unfold uffBody
  dsimp only
  rw [updateTrackStep_required]

lemma uffBody_compflag (items : Int → List (String × ℕ)) (acc : InvState)
    (tid' tid : Int) (k : String) (h : CompFlagInv acc tid k) :
    CompFlagInv (uffBody items acc tid') tid k := by
  obtain ⟨r, hr, hc⟩ := h
  unfold uffBody
  dsimp only
  by_cases htid : tid = tid'
  · subst htid
    refine ⟨_, updateTrackStep_state _ _ _, ?_⟩
    have : ({ acc with ever_tracked_ids := fun t =>
        if t = tid then true else acc.ever_tracked_ids t } : InvState).state tid
        = some r := hr
    rw [this]
    exact stepRecord_completed_mono _ _ _ _ hc
  · refine ⟨r, ?_, hc⟩
    rw [updateTrackStep_state_ne _ _ _ _ htid]
    exact hr

lemma uffBody_c2done (items : Int → List (String × ℕ)) (acc : InvState)
    (tid' tid : Int) (hreq : acc.required = reqC2) (h : C2Done acc tid) :
    C2Done (uffBody items acc tid') tid := by
  obtain ⟨r, hr, h1, h2, hall⟩ := h
  unfold uffBody
  dsimp only
  by_cases htid : tid = tid'
  · subst htid
    refine ⟨_, updateTrackStep_state _ _ _, ?_, ?_, ?_⟩
    all_goals
      have hst : ({ acc with ever_tracked_ids := fun t =>
          if t = tid then true else acc.ever_tracked_ids t } : InvState).state tid
          = some r := hr
      rw [hst]
      simp only [Option.getD_some]
      rw [hreq]
    · exact stepRecord_completed_mono _ _ _ _ h1
    · exact stepRecord_completed_mono _ _ _ _ h2
    · exact stepRecord_allDone_reqC2 _ _
        (stepRecord_completed_mono _ _ _ _ h1)
        (stepRecord_completed_mono _ _ _ _ h2)
  · refine ⟨r, ?_, h1, h2, hall⟩
    rw [updateTrackStep_state_ne _ _ _ _ htid]
    exact hr

lemma uffBody_sets (items : Int → List (String × ℕ)) (acc : InvState)
    (tid : Int) (k : String) (need : ℕ)
    (hlk : acc.required.lookup k = some need)
    (hcnt : need ≤ (((items tid).lookup k).getD 0)) :
    CompFlagInv (uffBody items acc tid) tid k := by
  unfold uffBody
  dsimp only
  refine ⟨_, updateTrackStep_state _ _ _, ?_⟩
  exact stepRecord_completed_set _ _ _ _ _ hlk hcnt

lemma uffBody_c2done_final (items : Int → List (String × ℕ)) (acc : InvState)
    (tid : Int) (hreq : acc.required = reqC2)
    (hflag1 : CompFlagInv acc tid "class1")
    (hcnt2 : 1 ≤ (((items tid).lookup "class2").getD 0)) :
    C2Done (uffBody items acc tid) tid := by
  obtain ⟨r, hr, h1⟩ := hflag1
  unfold uffBody
  dsimp only
  refine ⟨_, updateTrackStep_state _ _ _, ?_, ?_, ?_⟩
  all_goals
    have hst : ({ acc with ever_tracked_ids := fun t =>
        if t = tid then true else acc.ever_tracked_ids t } : InvState).state tid
        = some r := hr
    rw [hst]
    simp only [Option.getD_some]
    rw [hreq]
  · exact stepRecord_completed_mono _ _ _ _ h1
  · exact stepRecord_completed_set _ _ _ _ 1 (by decide) hcnt2
  · exact stepRecord_allDone_reqC2 _ _
      (stepRecord_completed_mono _ _ _ _ h1)
      (stepRecord_completed_set _ _ _ _ 1 (by decide) hcnt2)

lemma foldl_uff_required (items : Int → List (String × ℕ)) :
    ∀ (ids : List Int) (s : InvState),
      (ids.foldl (uffBody items) s).required = s.required := by
  intro ids
  induction ids with
  | nil => intro s; rfl
  | cons t ts ih =>
      intro s
      simp only [List.foldl_cons]
      rw [ih, uffBody_required]

lemma foldl_uff_compflag (items : Int → List (String × ℕ)) (tid : Int)
    (k : String) :
    ∀ (ids : List Int) (s : InvState), CompFlagInv s tid k →
      CompFlagInv (ids.foldl (uffBody items) s) tid k := by
  intro ids
  induction ids with
  | nil => intro s h; exact h
  | cons t ts ih =>
      intro s h
      simp only [List.foldl_cons]
      exact ih _ (uffBody_compflag items s t tid k h)

lemma foldl_uff_c2done (items : Int → List (String × ℕ)) (tid : Int) :
    ∀ (ids : List Int) (s : InvState), s.required = reqC2 → C2Done s tid →
      C2Done (ids.foldl (uffBody items) s) tid := by
  intro ids
  induction ids with
  | nil => intro s _ h; exact h
  | cons t ts ih =>
      intro s hreq h
      simp only [List.foldl_cons]
      refine ih _ ?_ (uffBody_c2done items s t tid hreq h)
      rw [uffBody_required, hreq]

lemma foldl_uff_sets_flag (items : Int → List (String × ℕ)) (tid : Int)
    (k : String) (need : ℕ) (hlkC2 : reqC2.lookup k = some need)
    (hcnt : need ≤ (((items tid).lookup k).getD 0)) :
    ∀ (ids : List Int) (s : InvState), tid ∈ ids → s.required = reqC2 →
      CompFlagInv (ids.foldl (uffBody items) s) tid k := by
  intro ids
  induction ids with
  | nil => intro s h; cases h
  | cons t ts ih =>
      intro s hmem hreq
      simp only [List.foldl_cons]
      rcases List.mem_cons.mp hmem with heq | hmem'
      · subst heq
        exact foldl_uff_compflag items tid k ts _
          (uffBody_sets items s tid k need (by rw [hreq]; exact hlkC2) hcnt)
      · exact ih _ hmem' (by rw [uffBody_required, hreq])

lemma foldl_uff_c2done_final (items : Int → List (String × ℕ)) (tid : Int)
    (hcnt2 : 1 ≤ (((items tid).lookup "class2").getD 0)) :
    ∀ (ids : List Int) (s : InvState), tid ∈ ids → s.required = reqC2 →
      CompFlagInv s tid "class1" →
      C2Done (ids.foldl (uffBody items) s) tid := by
  intro ids
  induction ids with
  | nil => intro s h; cases h
  | cons t ts ih =>
      intro s hmem hreq hflag
      simp only [List.foldl_cons]
      rcases List.mem_cons.mp hmem with heq | hmem'
      · subst heq
        refine foldl_uff_c2done items tid ts _ ?_
          (uffBody_c2done_final items s tid hreq hflag hcnt2)
        rw [uffBody_required, hreq]
      · exact ih _ hmem' (by rw [uffBody_required, hreq])
          (uffBody_compflag items s t tid "class1" hflag)

lemma update_for_frame_required (s : InvState) (ids : List Int)
    (items : Int → List (String × ℕ)) :
    (update_for_frame s ids items).required = s.required := by
  unfold update_for_frame
  exact foldl_uff_required items ids s

lemma update_for_frame_compflag (s : InvState) (ids : List Int)
    (items : Int → List (String × ℕ)) (tid : Int) (k : String)
    (h : CompFlagInv s tid k) :
    CompFlagInv (update_for_frame s ids items) tid k := by
  unfold update_for_frame
  exact foldl_uff_compflag items tid k ids s h

lemma update_for_frame_c2done (s : InvState) (ids : List Int)
    (items : Int → List (String × ℕ)) (tid : Int)
    (hreq : s.required = reqC2) (h : C2Done s tid) :
    C2Done (update_for_frame s ids items) tid := by
  unfold update_for_frame
  exact foldl_uff_c2done items tid ids s hreq h

lemma runLedgerFrames_required (tid : Int) :
    ∀ (frames : List LedgerFrame) (s : InvState),
      (runLedgerFrames s frames).required = s.required := by
  intro frames
  induction frames with
  | nil => intro s; rfl
  | cons f fs ih =>
      intro s
      unfold runLedgerFrames at ih ⊢
      simp only [List.foldl_cons]
      rw [ih, update_for_frame_required]

lemma runLedgerFrames_compflag (tid : Int) (k : String) :
    ∀ (frames : List LedgerFrame) (s : InvState), CompFlagInv s tid k →
      CompFlagInv (runLedgerFrames s frames) tid k := by
  intro frames
  induction frames with
  | nil => intro s h; exact h
  | cons f fs ih =>
      intro s h
      unfold runLedgerFrames at ih ⊢
      simp only [List.foldl_cons]
      exact ih _ (update_for_frame_compflag s f.trackedIds f.items tid k h)

lemma runLedgerFrames_c2done (tid : Int) :
    ∀ (frames : List LedgerFrame) (s : InvState), s.required = reqC2 →
      C2Done s tid → C2Done (runLedgerFrames s frames) tid := by
  intro frames
  induction frames with
  | nil => intro s _ h; exact h
  | cons f fs ih =>
      intro s hreq h
      unfold runLedgerFrames at ih ⊢
      simp only [List.foldl_cons]
      refine ih _ ?_ (update_for_frame_c2done s f.trackedIds f.items tid hreq h)
      rw [update_for_frame_required, hreq]

/-- C2: with `required = [class1 ↦ 2, class2 ↦ 1]`, if some frame reports
track `tid` with at least 2 items of class1, and a later frame reports it
with at least 1 item of class2, then after that later frame — and after
every subsequent `update_for_frame` call, including frames reporting zero
counts — the track's `is_all_completed` is true: completed flags are never
reset. -/
theorem inventory_sticky_completion (s0 : InvState)
    (hreq : s0.required = reqC2)
    (frames1 frames2 : List LedgerFrame) (fA fB : LedgerFrame) (tid : Int)
    (hA1 : tid ∈ fA.trackedIds)
    (hA2 : 2 ≤ (((fA.items tid).lookup "class1").getD 0))
    (hB1 : tid ∈ fB.trackedIds)
    (hB2 : 1 ≤ (((fB.items tid).lookup "class2").getD 0)) :
    ∀ frames3 : List LedgerFrame,
      trackAllCompleted
        (runLedgerFrames
          (update_for_frame
            (runLedgerFrames
              (update_for_frame (runLedgerFrames s0 frames1) fA.trackedIds fA.items)
              frames2)
            fB.trackedIds fB.items)
          frames3) tid = true := by
  intro frames3
  have hreq1 : (runLedgerFrames s0 frames1).required = reqC2 := by
    rw [runLedgerFrames_required tid, hreq]
  have hflagA : CompFlagInv
      (update_for_frame (runLedgerFrames s0 frames1) fA.trackedIds fA.items)
      tid "class1" := by
    unfold update_for_frame
    exact foldl_uff_sets_flag fA.items tid "class1" 2 (by decide) hA2
      fA.trackedIds _ hA1 hreq1
  have hreq2 : (runLedgerFrames
      (update_for_frame (runLedgerFrames s0 frames1) fA.trackedIds fA.items)
      frames2).required = reqC2 := by
    rw [runLedgerFrames_required tid, update_for_frame_required, hreq1]
  have hflagA2 : CompFlagInv
      (runLedgerFrames
        (update_for_frame (runLedgerFrames s0 frames1) fA.trackedIds fA.items)
        frames2) tid "class1" :=
    runLedgerFrames_compflag tid "class1" frames2 _ hflagA
  have hdoneB : C2Done
      (update_for_frame
        (runLedgerFrames
          (update_for_frame (runLedgerFrames s0 frames1) fA.trackedIds fA.items)
          frames2)
        fB.trackedIds fB.items) tid := by
    unfold update_for_frame
    exact foldl_uff_c2done_final fB.items tid hB2 fB.trackedIds _ hB1 hreq2 hflagA2
  have hreq3 : (update_for_frame
      (runLedgerFrames
        (update_for_frame (runLedgerFrames s0 frames1) fA.trackedIds fA.items)
        frames2)
      fB.trackedIds fB.items).required = reqC2 := by
    rw [update_for_frame_required, hreq2]
  have hfinal := runLedgerFrames_c2done tid frames3 _ hreq3 hdoneB
  obtain ⟨r, hr, _, _, hall⟩ := hfinal
  unfold trackAllCompleted
  rw [hr]
  exact hall

/-- `InventoryManager.__init__`: requirements are the classes with positive
quantity in `spec['class0']['contains']`; names cover every listed class;
all per-track state starts empty.  The spec entry format is
(class key, (display name, quantity)). -/
def initialInvState (spec : List (String × String × ℕ)) : InvState :=
  { required := (spec.filter fun kv => 0 < kv.2.2).map fun kv => (kv.1, kv.2.2),
    names := spec.map fun kv => (kv.1, kv.2.1),
    state := fun _ => none,
    active_ids := fun _ => false,
    ever_tracked_ids := fun _ => false }

/-- C2 witness: track 7 meets the class1 quota in one frame, the class2
quota in a later frame, and stays `is_all_completed` through a further
frame that reports zero counts. -/
theorem inventory_sticky_completion_witness :
    (initialInvState [("class1", ("partA", 2)), ("class2", ("partB", 1))]).required
        = reqC2 ∧
      (7 : Int) ∈ ([7] : List Int) ∧
      2 ≤ ((((fun t => if t = (7 : Int) then [("class1", 2)] else []) 7).lookup
        "class1").getD 0) ∧
      1 ≤ ((((fun t => if t = (7 : Int) then [("class2", 1)] else []) 7).lookup
        "class2").getD 0) ∧
      trackAllCompleted
        (runLedgerFrames
          (update_for_frame
            (runLedgerFrames
              (update_for_frame
                (runLedgerFrames
                  (initialInvState [("class1", ("partA", 2)), ("class2", ("partB", 1))])
                  [])
                [7] (fun t => if t = (7 : Int) then [("class1", 2)] else []))
              [])
            [7] (fun t => if t = (7 : Int) then [("class2", 1)] else []))
          [⟨[7], fun _ => []⟩]) 7 = true :=
  ⟨by decide, by decide, by decide, by decide,
    inventory_sticky_completion _ (by decide) [] []
      ⟨[7], fun t => if t = (7 : Int) then [("class1", 2)] else []⟩
      ⟨[7], fun t => if t = (7 : Int) then [("class2", 1)] else []⟩
      7 (by decide) (by decide) (by decide) (by decide)
      [⟨[7], fun _ => []⟩]⟩

/-! ## Signal controller decision ladder
(src/modules/frame_processor.py, `FrameProcessor._update_light_status`) -/

/-- The command issued by one evaluation of `_update_light_status`; exactly
one branch of the priority ladder fires. -/
inductive LightAction where
  | redFlashBuzzer (duration : ℚ)
  | greenOn (duration : ℚ)
  | keepTimer
  | yellowOn
  | blueOn
deriving DecidableEq, Repr

/-- `_update_light_status`: reads the just-disappeared id status, then the
priority ladder: any incomplete id → flashing red with buzzer for 1s and
return; else any completed id → green for 0.5s and return; else an active
timer → do nothing; else yellow when no storage box is tracked, blue
otherwise. -/
def update_light_status (hasStorageBox : Bool)
    (status : Option DisappearStatus) (timerRunning : Bool) : LightAction :=
  let completedIds := match status with
    | some st => st.completed_ids
    | none => []
  let incompleteIds := match status with
    | some st => st.incomplete_ids
    | none => []
  if incompleteIds ≠ [] then .redFlashBuzzer 1
  else if completedIds ≠ [] then .greenOn (1/2)
  else if timerRunning then .keepTimer
  else if ¬ hasStorageBox then .yellowOn
  else .blueOn

/-- C3: if this frame's disappearance resolution yields at least one
incomplete id, the controller evaluation issues the
flashing-red-with-buzzer command (1 second) and nothing else — in
particular not the green command and none of the timer/steady-state
branches — regardless of completed ids, the timer, or tracked boxes. -/
theorem light_priority_incomplete (s : InvState) (ids : List Int)
    (hasStorageBox timerRunning : Bool)
    (hinc : ((handle_disappearance s ids).1.2).incomplete_ids ≠ []) :
    update_light_status hasStorageBox (some (handle_disappearance s ids).1.2)
      timerRunning = .redFlashBuzzer 1 := by
  unfold update_light_status
  simp only [hinc]
  rw [if_pos hinc]

/-- C3 witness: a ledger that knows track 5 (incomplete) and is told it
disappeared. -/
theorem light_priority_incomplete_witness :
    ((handle_disappearance
        (update_for_frame (initialInvState [("class1", ("partA", 2))]) [5]
          (fun _ => []))
        [5]).1.2).incomplete_ids ≠ [] ∧
      update_light_status true
        (some (handle_disappearance
          (update_for_frame (initialInvState [("class1", ("partA", 2))]) [5]
            (fun _ => []))
          [5]).1.2) false = .redFlashBuzzer 1 :=
  ⟨by decide, light_priority_incomplete _ _ true false (by decide)⟩

/-! ## Detector thread frame loop (src/modules/detector_thread.py,
`DetectorThread.run`) -/

/-- Outcome of one iteration of the frame loop's try block: the whole
detect/track/assign/ledger/record stage either completes or raises. -/
inductive FrameOutcome where
  | ok
  | err
deriving DecidableEq, Repr

/-- Log events of the frame loop that matter to the termination behaviour. -/
inductive LoopLog where
  | videoEnd
  | frameError
  | threadExit
deriving DecidableEq, Repr

structure RunResult where
  frame_count : ℕ
  logs : List LoopLog
  running : Bool
deriving DecidableEq, Repr

/-- The while loop of `DetectorThread.run`: the stream is the per-iteration
outcome of the try block; an exhausted stream is a failed read (video end).
`frame_count` increments only after a fully successful iteration; a raised
exception logs the error and breaks. -/
def runFrameLoop : List FrameOutcome → ℕ → ℕ × List LoopLog
  | [], n => (n, [.videoEnd])
  | .ok :: rest, n => runFrameLoop rest (n + 1)
  | .err :: rest, n => (n, [.frameError])

/-- `DetectorThread.run` after source initialisation: run the loop, then
release resources, clean up the recorder, clear `running`, and log the
exit. `is_running()` returns the final `running` field. -/
def runDetectorThread (frames : List FrameOutcome) : RunResult :=
  let (n, logs) := runFrameLoop frames 0
  ⟨n, logs ++ [.threadExit], false⟩

lemma runFrameLoop_ok_front (pre : List FrameOutcome) (hpre : ∀ f ∈ pre, f = .ok) :
    ∀ (rest : List FrameOutcome) (n : ℕ),
      runFrameLoop (pre ++ rest) n = runFrameLoop rest (n + pre.length) := by
  induction pre with
  | nil => intro rest n; simp [runFrameLoop]
  | cons f fs ih =>
      intro rest n
      have hf : f = .ok := hpre f (List.mem_cons_self _ _)
      subst hf
      have hfs : ∀ g ∈ fs, g = FrameOutcome.ok := fun g hg =>
        hpre g (List.mem_cons_of_mem _ hg)
      simp only [List.cons_append]
      rw [show runFrameLoop (FrameOutcome.ok :: (fs ++ rest)) n =
        runFrameLoop (fs ++ rest) (n + 1) from rfl, ih hfs, List.length_cons]
      congr 1
      omega

/-- C8: if processing some frame raises (after a prefix of successful
frames), the session terminates at that point: the result is independent of
every frame that would have followed, the number of completed frames is
exactly the prefix length, the failure is logged, and the thread reports
not running. -/
theorem frame_error_fail_fast (pre post : List FrameOutcome)
    (hpre : ∀ f ∈ pre, f = .ok) :
    runDetectorThread (pre ++ .err :: post) = runDetectorThread (pre ++ [.err]) ∧
      (runDetectorThread (pre ++ .err :: post)).frame_count = pre.length ∧
      .frameError ∈ (runDetectorThread (pre ++ .err :: post)).logs ∧
      (runDetectorThread (pre ++ .err :: post)).running = false := by
  unfold runDetectorThread
  rw [runFrameLoop_ok_front pre hpre, runFrameLoop_ok_front pre hpre]
  simp [runFrameLoop]

/-- C8 witness: two good frames, then a processing exception, then two
frames that are never reached. -/
theorem frame_error_fail_fast_witness :
    (∀ f ∈ [FrameOutcome.ok, FrameOutcome.ok], f = FrameOutcome.ok) ∧
      (runDetectorThread ([FrameOutcome.ok, FrameOutcome.ok] ++
          FrameOutcome.err :: [FrameOutcome.ok, FrameOutcome.err]) =
        runDetectorThread ([FrameOutcome.ok, FrameOutcome.ok] ++ [FrameOutcome.err]) ∧
      (runDetectorThread ([FrameOutcome.ok, FrameOutcome.ok] ++
          FrameOutcome.err :: [FrameOutcome.ok, FrameOutcome.err])).frame_count =
        [FrameOutcome.ok, FrameOutcome.ok].length ∧
      LoopLog.frameError ∈ (runDetectorThread ([FrameOutcome.ok, FrameOutcome.ok] ++
          FrameOutcome.err :: [FrameOutcome.ok, FrameOutcome.err])).logs ∧
      (runDetectorThread ([FrameOutcome.ok, FrameOutcome.ok] ++
          FrameOutcome.err :: [FrameOutcome.ok, FrameOutcome.err])).running = false) :=
  ⟨by decide, frame_error_fail_fast [FrameOutcome.ok, FrameOutcome.ok]
    [FrameOutcome.ok, FrameOutcome.err] (by decide)⟩

/-! ## Alert clip recorder (src/modules/alert_manager.py `AlertManager`,
and the alert branch of `DetectorThread.run`).  Frames are identified by
their index in the stream; a task records the frames written to its clip
and its post-roll countdown. -/

structure RecTask where
  written : List ℕ
  remaining : Int
deriving DecidableEq, Repr

/-- AlertManager state: the active `save_tasks` plus the finalized clips
(removed from `save_tasks` on completion, kept here so the emitted content
can be inspected). -/
structure AMState where
  save_tasks : List RecTask
  closed : List RecTask
deriving DecidableEq, Repr

def modifyIdx {α : Type} (f : α → α) : ℕ → List α → List α
  | _, [] => []
  | 0, x :: xs => f x :: xs
  | n + 1, x :: xs => x :: modifyIdx f n xs

/-- `start_recording`: on a non-empty alert list, unconditionally append a
fresh task (no check of already-open clips) with the post-roll countdown,
and return it (here: its index) for the caller's `write_pre_buffer`. -/
def start_recording (postFrames : ℕ) (alerts : List AlertEvent) (m : AMState) :
    Option ℕ × AMState :=
  if alerts.isEmpty then (none, m)
  else (some m.save_tasks.length,
    { m with save_tasks := m.save_tasks ++ [⟨[], (postFrames : Int)⟩] })

/-- `write_pre_buffer`: write every buffered frame, oldest first, to the
given task; no-op when there is no task or the buffer is empty. -/
def write_pre_buffer (buf : List ℕ) (ti : Option ℕ) (m : AMState) : AMState :=
  match ti with
  | none => m
  | some i =>
      if buf.isEmpty then m
      else
        let wr : RecTask → RecTask := fun t => { t with written := t.written ++ buf }
        { m with save_tasks := modifyIdx wr i m.save_tasks }

/-- `write_frame`: write the current frame to every active task, decrement
each countdown, and finalize (close and remove) every task that reached 0. -/
def write_frame (frame : ℕ) (m : AMState) : AMState :=
  let ts := m.save_tasks.map fun t =>
    RecTask.mk (t.written ++ [frame]) (t.remaining - 1)
  { save_tasks := ts.filter fun t => ¬ (t.remaining ≤ 0),
    closed := m.closed ++ ts.filter fun t => t.remaining ≤ 0 }

/-- Fixed-capacity ring buffer push (`deque(maxlen=...)` append). -/
def pushBuf (maxlen : ℕ) (buf : List ℕ) (x : ℕ) : List ℕ :=
  let b := buf ++ [x]
  if maxlen < b.length then b.drop (b.length - maxlen) else b

/-- The recorder-relevant state of the detector loop: the pre-roll ring
buffer and the alert manager. -/
structure DetRecState where
  pre_buffer : List ℕ
  am : AMState
deriving DecidableEq, Repr

/-- The per-frame recorder slice of `DetectorThread.run`: append the frame
to the pre-roll buffer, then (on a non-empty alert list, with saving
enabled) start a recording and write the buffer into it, then write the
current frame to all active tasks. -/
def processAlertFrame (d postFrames : ℕ) (saveEnabled : Bool)
    (st : DetRecState) (frame : ℕ) (alerts : List AlertEvent) : DetRecState :=
  let buf := pushBuf d st.pre_buffer frame
  let am1 :=
    if alerts ≠ [] then
      if saveEnabled then
        let r := start_recording postFrames alerts st.am
        write_pre_buffer buf r.1 r.2
      else st.am
    else st.am
  let am2 := write_frame frame am1
  ⟨buf, am2⟩

def runDetRec (d postFrames : ℕ) (saveEnabled : Bool) (st : DetRecState)
    (frames : List (ℕ × List AlertEvent)) : DetRecState :=
  frames.foldl (fun acc f => processAlertFrame d postFrames saveEnabled acc f.1 f.2) st

/-- C4 counterexample: pre-roll depth 5, trigger while processing frame 6
(five fully processed frames before it).  The clip's first five written
frames are 2,3,4,5,6 — the buffer already contains the trigger frame — not
the claimed 1,2,3,4,5; frame 6 is then written again by `write_frame`. -/
theorem pre_roll_first_frames_counterexample :
    ((runDetRec 5 100 true ⟨[], ⟨[], []⟩⟩
        [(1, []), (2, []), (3, []), (4, []), (5, []),
          (6, [⟨8, [("class2", "partB")]⟩])]).am.save_tasks).map RecTask.written
      = [[2, 3, 4, 5, 6, 6]] ∧
    ¬ ([2, 3, 4, 5, 6, 6].take 5 = [1, 2, 3, 4, 5]) := by
  constructor
  · rfl
  · decide

/-- C5 counterexample: alerts on two consecutive frames with a 10-frame
post-roll leave two recording tasks active simultaneously — a second clip
is opened while the first is still open. -/
theorem single_active_clip_counterexample :
    ((runDetRec 5 10 true ⟨[], ⟨[], []⟩⟩
        [(1, [⟨1, [("class1", "partA")]⟩]), (2, [⟨2, [("class1", "partA")]⟩])]
      ).am.save_tasks).length = 2 ∧
    ¬ (((runDetRec 5 10 true ⟨[], ⟨[], []⟩⟩
        [(1, [⟨1, [("class1", "partA")]⟩]), (2, [⟨2, [("class1", "partA")]⟩])]
      ).am.save_tasks).length ≤ 1) := by
  constructor
  · rfl
  · decide

lemma modifyIdx_length {α : Type} (f : α → α) :
    ∀ (i : ℕ) (l : List α), (modifyIdx f i l).length = l.length := by
  intro i
  induction i with
  | zero => intro l; cases l <;> rfl
  | succ n ih =>
      intro l
      cases l with
      | nil => rfl
      | cons x xs => simp [modifyIdx, ih]

lemma modifyIdx_mem {α : Type} (f : α → α) :
    ∀ (i : ℕ) (l : List α) (y : α), y ∈ modifyIdx f i l →
      y ∈ l ∨ ∃ x ∈ l, y = f x := by
  intro i
  induction i with
  | zero =>
      intro l y hy
      cases l with
      | nil => cases hy
      | cons x xs =>
          rcases List.mem_cons.mp hy with h | h
          · exact Or.inr ⟨x, List.mem_cons_self _ _, h⟩
          · exact Or.inl (List.mem_cons_of_mem _ h)
  | succ n ih =>
      intro l y hy
      cases l with
      | nil => cases hy
      | cons x xs =>
          rcases List.mem_cons.mp hy with h | h
          · exact Or.inl (h ▸ List.mem_cons_self _ _)
          · rcases ih xs y h with h' | ⟨z, hz, hyz⟩
            · exact Or.inl (List.mem_cons_of_mem _ h')
            · exact Or.inr ⟨z, List.mem_cons_of_mem _ hz, hyz⟩

lemma write_pre_buffer_length (buf : List ℕ) (ti : Option ℕ) (m : AMState) :
    ((write_pre_buffer buf ti m).save_tasks).length = m.save_tasks.length := by
  unfold write_pre_buffer
  cases ti with
  | none => rfl
  | some i =>
      dsimp only
      split
      · rfl
      · exact modifyIdx_length _ i m.save_tasks

lemma write_pre_buffer_remaining (buf : List ℕ) (ti : Option ℕ) (m : AMState)
    (t : RecTask) (ht : t ∈ (write_pre_buffer buf ti m).save_tasks) :
    ∃ t' ∈ m.save_tasks, t.remaining = t'.remaining := by
  unfold write_pre_buffer at ht
  cases ti with
  | none => exact ⟨t, ht, rfl⟩
  | some i =>
      dsimp only at ht
      split at ht
      · exact ⟨t, ht, rfl⟩
      · rcases modifyIdx_mem _ i m.save_tasks t ht with h | ⟨x, hx, hfx⟩
        · exact ⟨t, h, rfl⟩
        · exact ⟨x, hx, by rw [hfx]⟩

/-- C5 amended: a frame with a non-empty alert list (saving enabled) opens
a new recording task unconditionally — even while other clips are open —
so the number of active tasks grows by one (no task also expires that frame
when every countdown, including the fresh one, is at least 2). -/
theorem alert_frame_opens_additional_clip (d postF : ℕ) (st : DetRecState)
    (frame : ℕ) (alerts : List AlertEvent) (halerts : alerts ≠ [])
    (hpost : 2 ≤ postF)
    (hrem : ∀ t ∈ st.am.save_tasks, 2 ≤ t.remaining) :
    ((processAlertFrame d postF true st frame alerts).am.save_tasks).length =
      st.am.save_tasks.length + 1 := by
  unfold processAlertFrame
  dsimp only
  rw [if_pos halerts, if_pos rfl]
  have hne : alerts.isEmpty = false := by
    cases alerts with
    | nil => exact absurd rfl halerts
    | cons a as => rfl
  unfold start_recording
  rw [hne]
  simp only [Bool.false_eq_true, if_false]
  set m1 : AMState :=
    { st.am with save_tasks := st.am.save_tasks ++ [⟨[], (postF : Int)⟩] } with hm1
  set m2 := write_pre_buffer (pushBuf d st.pre_buffer frame)
    (some st.am.save_tasks.length) m1 with hm2
  have hrem2 : ∀ t ∈ m2.save_tasks, 2 ≤ t.remaining := by
    intro t ht
    rcases write_pre_buffer_remaining _ _ _ t ht with ⟨t', ht', hr⟩
    rw [hm1] at ht'
    rcases List.mem_append.mp ht' with h | h
    · rw [hr]; exact hrem t' h
    · rcases List.mem_singleton.mp h with rfl
      rw [hr]
      show (2 : Int) ≤ (postF : Int)
      exact_mod_cast hpost
  have hlen2 : m2.save_tasks.length = st.am.save_tasks.length + 1 := by
    rw [hm2, write_pre_buffer_length, hm1]
    simp
  unfold write_frame
  dsimp only
  rw [List.filter_eq_self.mpr]
  · rw [List.length_map, hlen2]
  · intro a ha
    rcases List.mem_map.mp ha with ⟨t, ht, rfl⟩
    have := hrem2 t ht
    simp only [decide_eq_true_eq, Bool.not_eq_true', decide_eq_false_iff_not]
    omega

/-- C5 amended witness: an alert frame processed while one clip (countdown
5) is already open leaves two active tasks. -/
theorem alert_frame_opens_additional_clip_witness :
    ([(⟨1, []⟩ : AlertEvent)] ≠ ([] : List AlertEvent)) ∧ 2 ≤ 10 ∧
      (∀ t ∈ ([⟨[1, 2], 5⟩] : List RecTask), 2 ≤ t.remaining) ∧
      ((processAlertFrame 5 10 true ⟨[1, 2], ⟨[⟨[1, 2], 5⟩], []⟩⟩ 3
          [⟨1, []⟩]).am.save_tasks).length = 1 + 1 :=
  ⟨by decide, by decide, by decide,
    alert_frame_opens_additional_clip 5 10 ⟨[1, 2], ⟨[⟨[1, 2], 5⟩], []⟩⟩ 3
      [⟨1, []⟩] (by decide) (by decide) (by decide)⟩

lemma write_frame_empty (frame : ℕ) : write_frame frame ⟨[], []⟩ = ⟨[], []⟩ := rfl

lemma processAlertFrame_noalert (d postF : ℕ) (se : Bool) (st : DetRecState)
    (frame : ℕ) :
    processAlertFrame d postF se st frame [] =
      ⟨pushBuf d st.pre_buffer frame, write_frame frame st.am⟩ := by
  unfold processAlertFrame
  simp

lemma pushBuf_window (d k : ℕ) (hd : 1 ≤ d) :
    pushBuf d ((List.range' 1 k).drop (k - d)) (k + 1) =
      (List.range' 1 (k + 1)).drop (k + 1 - d) := by
  have hlen : (List.range' 1 k).length = k := by simp
  have hcat : List.range' 1 (k + 1) = List.range' 1 k ++ [k + 1] := by
    have := @List.range'_concat 1 1 k
    simpa [Nat.add_comm] using this
  unfold pushBuf
  dsimp only
  by_cases hk : k < d
  · have h1 : k - d = 0 := by omega
    have h2 : k + 1 - d = 0 := by omega
    rw [h1, h2, List.drop_zero, List.drop_zero, ← hcat]
    rw [if_neg]
    rw [hcat]
    simp [hlen]
    omega
  · have hdk : d ≤ k := by omega
    have hlen2 : ((List.range' 1 k).drop (k - d) ++ [k + 1]).length = d + 1 := by
      simp [hlen]
      omega
    rw [if_pos (by rw [hlen2]; omega), hlen2]
    have hstep : d + 1 - d = 1 := by omega
    rw [hstep]
    have hdrop1 : ((List.range' 1 k).drop (k - d) ++ [k + 1]).drop 1 =
        ((List.range' 1 k).drop (k - d)).drop 1 ++ [k + 1] := by
      apply List.drop_append_of_le_length
      simp [hlen]
      omega
    rw [hdrop1, List.drop_drop, hcat,
      List.drop_append_of_le_length (by rw [hlen]; omega)]
    congr 2
    omega

lemma runDetRec_noalerts_empty (d postF : ℕ) (se : Bool) (hd : 1 ≤ d) :
    ∀ k : ℕ,
      runDetRec d postF se ⟨[], ⟨[], []⟩⟩ ((List.range' 1 k).map fun n => (n, [])) =
        ⟨(List.range' 1 k).drop (k - d), ⟨[], []⟩⟩ := by
  intro k
  induction k with
  | zero => simp [runDetRec]
  | succ k ih =>
      have hcat : List.range' 1 (k + 1) = List.range' 1 k ++ [k + 1] := by
        have := @List.range'_concat 1 1 k
        simpa [Nat.add_comm] using this
      rw [hcat]
      unfold runDetRec at ih ⊢
      rw [List.map_append, List.foldl_append, ih]
      simp only [List.map_cons, List.map_nil, List.foldl_cons, List.foldl_nil]
      rw [processAlertFrame_noalert, write_frame_empty, pushBuf_window d k hd, hcat]

lemma runDetRec_noalerts_single_task (d postF : ℕ) (se : Bool) :
    ∀ (ks : List ℕ) (buf0 w : List ℕ) (r : Int),
      ((ks.length : Int) < r) →
      (runDetRec d postF se ⟨buf0, ⟨[⟨w, r⟩], []⟩⟩ (ks.map fun n => (n, []))).am =
        ⟨[⟨w ++ ks, r - ks.length⟩], []⟩ := by
  intro ks
  induction ks with
  | nil => intro buf0 w r _; simp [runDetRec]
  | cons k ks ih =>
      intro buf0 w r hr
      simp only [List.length_cons] at hr
      unfold runDetRec
      simp only [List.map_cons, List.foldl_cons]
      rw [processAlertFrame_noalert]
      have hwf : write_frame k ⟨[⟨w, r⟩], []⟩ =
          ⟨[⟨w ++ [k], r - 1⟩], []⟩ := by
        unfold write_frame
        simp only [List.map_cons, List.map_nil]
        rw [List.filter_cons_of_pos, List.filter_cons_of_neg]
        · rfl
        · simp only [decide_eq_true_eq]
          push_cast at hr ⊢
          omega
        · simp only [decide_eq_true_eq, Bool.not_eq_true', decide_eq_false_iff_not]
          push_cast at hr ⊢
          omega
      rw [hwf]
      have := ih (pushBuf d buf0 k) (w ++ [k]) (r - 1)
        (by push_cast at hr ⊢; omega)
      unfold runDetRec at this
      rw [this]
      simp only [List.append_assoc, List.singleton_append, List.length_cons]
      congr 2
      push_cast
      ring_nf

lemma pushBuf_ne_nil (d : ℕ) (hd : 1 ≤ d) (buf : List ℕ) (x : ℕ) :
    pushBuf d buf x ≠ [] := by
  unfold pushBuf
  dsimp only
  split
  · next h =>
      intro hc
      have := congrArg List.length hc
      simp at this
      omega
  · simp

lemma processAlertFrame_trigger (d postF : ℕ) (buf0 : List ℕ) (N : ℕ)
    (alerts : List AlertEvent) (halerts : alerts ≠ []) (hd : 1 ≤ d) :
    processAlertFrame d postF true ⟨buf0, ⟨[], []⟩⟩ N alerts =
      ⟨pushBuf d buf0 N,
        ⟨[⟨pushBuf d buf0 N ++ [N], (postF : Int) - 1⟩].filter
            (fun t => ¬ (t.remaining ≤ 0)),
          [⟨pushBuf d buf0 N ++ [N], (postF : Int) - 1⟩].filter
            (fun t => t.remaining ≤ 0)⟩⟩ := by
  unfold processAlertFrame
  dsimp only
  rw [if_pos halerts, if_pos rfl]
  have hne : alerts.isEmpty = false := by
    cases alerts with
    | nil => exact absurd rfl halerts
    | cons a as => rfl
  unfold start_recording
  rw [hne]
  simp only [Bool.false_eq_true, if_false]
  unfold write_pre_buffer
  dsimp only
  rw [if_neg (by simpa using pushBuf_ne_nil d hd buf0 N)]
  unfold write_frame
  dsimp only
  rfl

/-- C4 amended: with pre-roll ring depth `d` and the single alert trigger
while processing frame `N` (frames numbered from 1), the emitted clip's
written sequence is the buffer contents — the last `min d N` frames
*including the trigger frame* `N` — in original order, then frame `N`
written again by the per-frame write, then every subsequent frame. -/
theorem pre_roll_written_frames (d postF N T : ℕ) (alerts : List AlertEvent)
    (hd : 1 ≤ d) (hN : 1 ≤ N) (hNT : N ≤ T) (halerts : alerts ≠ [])
    (hpost : T - N + 2 ≤ postF) :
    ((runDetRec d postF true ⟨[], ⟨[], []⟩⟩
        ((List.range' 1 T).map fun n => (n, if n = N then alerts else []))).am.save_tasks).map
        RecTask.written
      = [((List.range' 1 N).drop (N - d)) ++ [N] ++ List.range' (N + 1) (T - N)] := by
  have h1N : 1 + (N - 1) = N := by omega
  have hT : (T - (N - 1)) + (N - 1) = T := by omega
  have e1 : T - (N - 1) = (T - N) + 1 := by omega
  have hsplit : List.range' 1 T =
      List.range' 1 (N - 1) ++ (N :: List.range' (N + 1) (T - N)) := by
    calc List.range' 1 T
        = List.range' 1 ((T - (N - 1)) + (N - 1)) := by rw [hT]
      _ = List.range' 1 (N - 1) ++ List.range' (1 + 1 * (N - 1)) (T - (N - 1)) :=
          (List.range'_append 1 (N - 1) (T - (N - 1)) 1).symm
      _ = List.range' 1 (N - 1) ++ List.range' N ((T - N) + 1) := by
          rw [one_mul, h1N, e1]
      _ = List.range' 1 (N - 1) ++ (N :: List.range' (N + 1) (T - N)) := by
          rw [List.range'_succ]
  rw [hsplit]
  set f : ℕ → ℕ × List AlertEvent := fun n => (n, if n = N then alerts else [])
    with hf
  have hmapA : (List.range' 1 (N - 1)).map f =
      (List.range' 1 (N - 1)).map fun n => (n, []) := by
    apply List.map_congr_left
    intro n hn
    have := List.mem_range'_1.mp hn
    have hne : n ≠ N := by omega
    simp [hf, hne]
  have hmapB : (List.range' (N + 1) (T - N)).map f =
      (List.range' (N + 1) (T - N)).map fun n => (n, []) := by
    apply List.map_congr_left
    intro n hn
    have := List.mem_range'_1.mp hn
    have hne : n ≠ N := by omega
    simp [hf, hne]
  have hfN : f N = (N, alerts) := by simp [hf]
  rw [List.map_append, List.map_cons, hmapA, hmapB, hfN]
  unfold runDetRec
  rw [List.foldl_append]
  have hphase1 := runDetRec_noalerts_empty d postF true hd (N - 1)
  unfold runDetRec at hphase1
  rw [hphase1]
  rw [List.foldl_cons]
  have htrig := processAlertFrame_trigger d postF
    ((List.range' 1 (N - 1)).drop (N - 1 - d)) N alerts halerts hd
  have hbufw : pushBuf d ((List.range' 1 (N - 1)).drop (N - 1 - d)) N =
      (List.range' 1 N).drop (N - d) := by
    have := pushBuf_window d (N - 1) hd
    have hN1 : N - 1 + 1 = N := by omega
    rw [hN1] at this
    exact this
  rw [htrig, hbufw]
  have hkeep : ([⟨(List.range' 1 N).drop (N - d) ++ [N], (postF : Int) - 1⟩] :
      List RecTask).filter (fun t => ¬ (t.remaining ≤ 0)) =
      [⟨(List.range' 1 N).drop (N - d) ++ [N], (postF : Int) - 1⟩] := by
    rw [List.filter_cons_of_pos, List.filter_nil]
    simp only [decide_eq_true_eq, Bool.not_eq_true', decide_eq_false_iff_not]
    have : (2 : Int) ≤ (postF : Int) := by exact_mod_cast (by omega : 2 ≤ postF)
    omega
  have hdropp : ([⟨(List.range' 1 N).drop (N - d) ++ [N], (postF : Int) - 1⟩] :
      List RecTask).filter (fun t => t.remaining ≤ 0) = [] := by
    rw [List.filter_cons_of_neg, List.filter_nil]
    simp only [decide_eq_true_eq]
    have : (2 : Int) ≤ (postF : Int) := by exact_mod_cast (by omega : 2 ≤ postF)
    omega
  rw [hkeep, hdropp]
  have hphase3 := runDetRec_noalerts_single_task d postF true
    (List.range' (N + 1) (T - N)) ((List.range' 1 N).drop (N - d))
    ((List.range' 1 N).drop (N - d) ++ [N]) ((postF : Int) - 1)
    (by
      rw [List.length_range']
      have : ((T - N : ℕ) : Int) + 2 ≤ (postF : Int) := by
        exact_mod_cast hpost
      omega)
  unfold runDetRec at hphase3
  rw [hphase3]
  rw [List.map_cons, List.map_nil, List.length_range']

/-- C4 amended witness: depth 5, trigger at frame 6 of 8; the clip is
frames 2..6 (buffer including the trigger), 6 again, then 7 and 8. -/
theorem pre_roll_written_frames_witness :
    1 ≤ 5 ∧ 1 ≤ 6 ∧ 6 ≤ 8 ∧ ([(⟨8, []⟩ : AlertEvent)] ≠ []) ∧ 8 - 6 + 2 ≤ 100 ∧
      ((runDetRec 5 100 true ⟨[], ⟨[], []⟩⟩
          ((List.range' 1 8).map fun n =>
            (n, if n = 6 then [(⟨8, []⟩ : AlertEvent)] else []))).am.save_tasks).map
          RecTask.written
        = [((List.range' 1 6).drop (6 - 5)) ++ [6] ++ List.range' (6 + 1) (8 - 6)] :=
  ⟨by decide, by decide, by decide, by decide, by decide,
    pre_roll_written_frames 5 100 6 8 [⟨8, []⟩] (by decide) (by decide)
      (by decide) (by decide) (by decide)⟩

/-! ## Association (src/core/tracker.py, `associate_detections_to_trackers`
and `linear_assignment`) -/

/-- Abstract stand-in for `linear_assignment` (lap.lapjv with extended
cost, or scipy `linear_sum_assignment`), the external optimal-assignment
solver called on `-iou_matrix`: given the detection count, the tracker
count and the IOU matrix it returns matched (detection, tracker) index
pairs.  Theorems quantify over the solver. -/
def Solver : Type := ℕ → ℕ → List (List ℚ) → List (ℕ × ℕ)

def matEntry (m : List (List ℚ)) (p : ℕ × ℕ) : ℚ := (m.getD p.1 []).getD p.2 0

/-- The 0/1 mask `(iou_matrix > iou_threshold)`. -/
def thresholdMask (m : List (List ℚ)) (τ : ℚ) : List (List Bool) :=
  m.map fun row => row.map fun x => decide (τ < x)

/-- Row sums of the mask (`a.sum(1)`). -/
def rowCounts (a : List (List Bool)) : List ℕ := a.map fun row => row.count true

/-- Column sums of the mask (`a.sum(0)`), for `nT` columns. -/
def colCounts (nT : ℕ) (a : List (List Bool)) : List ℕ :=
  (List.range nT).map fun t => (a.map fun row => row.getD t false).count true

def maxNat (l : List ℕ) : ℕ := l.foldr max 0

/-- `np.stack(np.where(a), axis=1)`: positions of the ones of the mask in
row-major order. -/
def wherePairs (a : List (List Bool)) : List (ℕ × ℕ) :=
  (a.enum.map fun dr =>
    dr.2.enum.filterMap fun tb => if tb.2 then some (dr.1, tb.1) else none).flatten

structure AssocResult where
  matched : List (ℕ × ℕ)
  unmatched_dets : List ℕ
  unmatched_trks : List ℕ
deriving DecidableEq, Repr

/-- `associate_detections_to_trackers`: empty-tracker early return; IOU
matrix; fast path when every row and column of the mask has at most one
entry above threshold and at least one such entry exists (`max == 1` on
both axes), otherwise the external solver; then unmatched-index collection
and demotion of matched pairs with IOU strictly below the threshold. -/
def associate_detections_to_trackers (solver : Solver) (dets trks : List Box)
    (iou_threshold : ℚ) : AssocResult :=
  if trks.isEmpty then ⟨[], List.range dets.length, []⟩
  else
    let iou_matrix := iou_batch dets trks
    let matched_indices : List (ℕ × ℕ) :=
      if 0 < min dets.length trks.length then
        let a := thresholdMask iou_matrix iou_threshold
        if maxNat (rowCounts a) = 1 ∧ maxNat (colCounts trks.length a) = 1 then
          wherePairs a
        else solver dets.length trks.length iou_matrix
      else []
    let unmatched_detections :=
      (List.range dets.length).filter fun d2 =>
        decide (d2 ∉ matched_indices.map Prod.fst)
    let unmatched_trackers :=
      (List.range trks.length).filter fun t =>
        decide (t ∉ matched_indices.map Prod.snd)
    let demoted := matched_indices.filter fun p =>
      decide (matEntry iou_matrix p < iou_threshold)
    let kept_matches := matched_indices.filter fun p =>
      ! decide (matEntry iou_matrix p < iou_threshold)
    ⟨kept_matches, unmatched_detections ++ demoted.map Prod.fst,
      unmatched_trackers ++ demoted.map Prod.snd⟩

/-! ## SORT tracker (src/core/tracker.py, `KalmanBoxTracker` and `Sort`).

The Kalman filter itself (filterpy, floating point, square roots in the
box conversions) is abstracted behind `KalmanModel`: an arbitrary filter
state type with the operations the tracker calls.  `predictBox` returning
`none` models a prediction containing NaN.  All tracker theorems hold for
every model, hence for the concrete filter. -/

structure KalmanModel (K : Type) where
  initK : Box → K
  stepPredict : K → K
  predictBox : K → Option Box
  updateK : K → Box → K
  stateBox : K → Box

structure KalmanBoxTracker (K : Type) where
  kf : K
  time_since_update : ℕ
  id : ℕ
  hits : ℕ
  hit_streak : ℕ
  age : ℕ
  has_been_returned : Bool

/-- `KalmanBoxTracker.__init__` with the running class counter value. -/
def ktInit {K : Type} (mdl : KalmanModel K) (bbox : Box) (count : ℕ) :
    KalmanBoxTracker K :=
  ⟨mdl.initK bbox, 0, count, 0, 0, 0, false⟩

/-- `KalmanBoxTracker.predict`: advance the filter, age the track, reset
the hit streak if the last update is stale, bump `time_since_update`, and
return the predicted box (`none` for NaN). -/
def ktPredict {K : Type} (mdl : KalmanModel K) (t : KalmanBoxTracker K) :
    KalmanBoxTracker K × Option Box :=
  let k' := mdl.stepPredict t.kf
  let t' : KalmanBoxTracker K :=
    { t with
      kf := k'
      age := t.age + 1
      hit_streak := if 0 < t.time_since_update then 0 else t.hit_streak
      time_since_update := t.time_since_update + 1 }
  (t', mdl.predictBox k')

/-- `KalmanBoxTracker.update` with an observed box. -/
def ktUpdate {K : Type} (mdl : KalmanModel K) (t : KalmanBoxTracker K)
    (bbox : Box) : KalmanBoxTracker K :=
  { t with
    time_since_update := 0
    hits := t.hits + 1
    hit_streak := t.hit_streak + 1
    kf := mdl.updateK t.kf bbox }

structure SortState (K : Type) where
  max_age : ℕ
  min_hits : ℕ
  iou_threshold : ℚ
  trackers : List (KalmanBoxTracker K)
  frame_count : ℕ
  count : ℕ

/-- `Sort.__init__`; `c0` is the value of the (class-level) id counter at
construction time. -/
def mkSort (K : Type) (max_age min_hits : ℕ) (iou_threshold : ℚ) (c0 : ℕ) :
    SortState K :=
  ⟨max_age, min_hits, iou_threshold, [], 0, c0⟩

def defaultBox : Box := ⟨0, 0, 0, 0⟩

/-- The matched-update loop: `self.trackers[m[1]].update(dets[m[0]])`. -/
def applyMatches {K : Type} (mdl : KalmanModel K) (dets : List Box)
    (matched : List (ℕ × ℕ)) (trks : List (KalmanBoxTracker K)) :
    List (KalmanBoxTracker K) :=
  matched.foldl
    (fun acc m => modifyIdx (fun t => ktUpdate mdl t (dets.getD m.1 defaultBox)) m.2 acc)
    trks

/-- The creation loop over unmatched detections: each new tracker takes the
current id counter value, which then increments. -/
def mkNewTrackers {K : Type} (mdl : KalmanModel K) (dets : List Box) :
    List ℕ → ℕ → List (KalmanBoxTracker K)
  | [], _ => []
  | i :: rest, c => ktInit mdl (dets.getD i defaultBox) c ::
      mkNewTrackers mdl dets rest (c + 1)

/-- The reportability test of the output loop:
`time_since_update < 1 and (hit_streak >= min_hits or frame_count <= min_hits)`. -/
def emitCondB (min_hits frame_count : ℕ) {K : Type} (t : KalmanBoxTracker K) : Bool :=
  decide (t.time_since_update < 1) &&
    (decide (min_hits ≤ t.hit_streak) || decide (frame_count ≤ min_hits))

/-- Setting `has_been_returned` on an emitted tracker. -/
def flagUp (min_hits frame_count : ℕ) {K : Type} (t : KalmanBoxTracker K) :
    KalmanBoxTracker K :=
  if emitCondB min_hits frame_count t then { t with has_been_returned := true }
  else t

/-- The staleness test `time_since_update > max_age`. -/
def deadB (max_age : ℕ) {K : Type} (t : KalmanBoxTracker K) : Bool :=
  decide (max_age < t.time_since_update)

/-- The final loop of `Sort.update` over `reversed(self.trackers)` (the
input here is already reversed): emit reportable tracks (setting
`has_been_returned`), then pop stale trackers, reporting the id of each
popped tracker whose flag is set.  Returns the emitted rows and
disappeared ids in iteration order and the kept trackers in iteration
order (i.e. reversed). -/
def emitLoop {K : Type} (mdl : KalmanModel K) (min_hits max_age frame_count : ℕ) :
    List (KalmanBoxTracker K) →
      List (Box × ℕ) × List ℕ × List (KalmanBoxTracker K)
  | [] => ([], [], [])
  | trk :: rest =>
      let trk' := flagUp min_hits frame_count trk
      let r0 : List (Box × ℕ) :=
        if emitCondB min_hits frame_count trk then
          [(mdl.stateBox trk'.kf, trk'.id + 1)]
        else []
      let d0 : List ℕ :=
        if deadB max_age trk' && trk'.has_been_returned then [trk'.id + 1] else []
      let k0 : List (KalmanBoxTracker K) := if deadB max_age trk' then [] else [trk']
      let rec0 := emitLoop mdl min_hits max_age frame_count rest
      (r0 ++ rec0.1, d0 ++ rec0.2.1, k0 ++ rec0.2.2)

/-- The prediction pass of `Sort.update`. -/
def predictedOf {K : Type} (mdl : KalmanModel K) (st : SortState K) :
    List (KalmanBoxTracker K × Option Box) :=
  st.trackers.map (ktPredict mdl)

/-- Trackers whose prediction is finite, paired with the predicted box
(the rows kept by `np.ma.compress_rows`). -/
def survivorsOf {K : Type} (mdl : KalmanModel K) (st : SortState K) :
    List (KalmanBoxTracker K × Box) :=
  (predictedOf mdl st).filterMap fun tb =>
    match tb.2 with
    | some b => some (tb.1, b)
    | none => none

/-- Trackers popped before association because their prediction is NaN. -/
def nanDeadOf {K : Type} (mdl : KalmanModel K) (st : SortState K) :
    List (KalmanBoxTracker K) :=
  (predictedOf mdl st).filterMap fun tb =>
    match tb.2 with
    | none => some tb.1
    | some _ => none

/-- Ids reported for the NaN-popped trackers (pop order is highest index
first, and only flagged trackers are reported). -/
def disFromNanOf {K : Type} (mdl : KalmanModel K) (st : SortState K) : List ℕ :=
  (((nanDeadOf mdl st).filter fun t => t.has_been_returned).map fun t =>
    t.id + 1).reverse

/-- The association step of `Sort.update`. -/
def arOf {K : Type} (mdl : KalmanModel K) (solver : Solver) (st : SortState K)
    (dets : List Box) : AssocResult :=
  associate_detections_to_trackers solver dets
    ((survivorsOf mdl st).map Prod.snd) st.iou_threshold

/-- The surviving trackers after the matched-update loop. -/
def updatedOf {K : Type} (mdl : KalmanModel K) (solver : Solver)
    (st : SortState K) (dets : List Box) : List (KalmanBoxTracker K) :=
  applyMatches mdl dets (arOf mdl solver st dets).matched
    ((survivorsOf mdl st).map Prod.fst)

/-- The trackers newly created during one `Sort.update` call, one per
unmatched detection, ids from the running counter. -/
def sortUpdateCreated {K : Type} (mdl : KalmanModel K) (solver : Solver)
    (st : SortState K) (dets : List Box) : List (KalmanBoxTracker K) :=
  mkNewTrackers mdl dets (arOf mdl solver st dets).unmatched_dets st.count

/-- The tracker list entering the final output loop of `Sort.update`. -/
def allTrackersOf {K : Type} (mdl : KalmanModel K) (solver : Solver)
    (st : SortState K) (dets : List Box) : List (KalmanBoxTracker K) :=
  updatedOf mdl solver st dets ++ sortUpdateCreated mdl solver st dets

/-- `Sort.update`: bump the frame counter; predict every tracker and drop
NaN predictions (reporting the dropped ids with the `+1` offset, highest
index first, when flagged); associate detections with the surviving
predictions; update matched trackers; create trackers for unmatched
detections; finally run the reversed emit/removal loop.  Returns
((reportable (box, id+1) rows, disappeared ids)), and the next state. -/
def sortUpdate {K : Type} (mdl : KalmanModel K) (solver : Solver)
    (st : SortState K) (dets : List Box) :
    (List (Box × ℕ) × List ℕ) × SortState K :=
  let frame_count := st.frame_count + 1
  let loopOut := emitLoop mdl st.min_hits st.max_age frame_count
    (allTrackersOf mdl solver st dets).reverse
  ((loopOut.1, disFromNanOf mdl st ++ loopOut.2.1),
    { st with
      trackers := loopOut.2.2.reverse
      frame_count := frame_count
      count := st.count + (arOf mdl solver st dets).unmatched_dets.length })

def sortRun {K : Type} (mdl : KalmanModel K) (solver : Solver) :
    SortState K → List (List Box) → SortState K
  | st, [] => st
  | st, dets :: rest => sortRun mdl solver (sortUpdate mdl solver st dets).2 rest

/-- The per-call return values ((reportable rows, disappeared ids)) along a
run. -/
def sortOutputs {K : Type} (mdl : KalmanModel K) (solver : Solver) :
    SortState K → List (List Box) → List (List (Box × ℕ) × List ℕ)
  | _, [] => []
  | st, dets :: rest =>
      (sortUpdate mdl solver st dets).1 ::
        sortOutputs mdl solver (sortUpdate mdl solver st dets).2 rest

/-- The ids given to newly created trackers, call by call, along a run. -/
def createdIdsTrace {K : Type} (mdl : KalmanModel K) (solver : Solver) :
    SortState K → List (List Box) → List (List ℕ)
  | _, [] => []
  | st, dets :: rest =>
      (sortUpdateCreated mdl solver st dets).map (fun t => t.id) ::
        createdIdsTrace mdl solver (sortUpdate mdl solver st dets).2 rest

lemma mkNewTrackers_length {K : Type} (mdl : KalmanModel K) (dets : List Box) :
    ∀ (um : List ℕ) (c : ℕ), (mkNewTrackers mdl dets um c).length = um.length := by
  intro um
  induction um with
  | nil => intro c; rfl
  | cons i rest ih => intro c; simp [mkNewTrackers, ih]

lemma mkNewTrackers_ids {K : Type} (mdl : KalmanModel K) (dets : List Box) :
    ∀ (um : List ℕ) (c : ℕ),
      (mkNewTrackers mdl dets um c).map (fun t => t.id) = List.range' c um.length := by
  intro um
  induction um with
  | nil => intro c; rfl
  | cons i rest ih =>
      intro c
      simp only [mkNewTrackers, List.map_cons, ih, List.length_cons]
      rw [List.range'_succ]
      rfl

/-- Consistency of the instrumented creation list with `sortUpdate`: the id
counter advances by exactly the number of created trackers. -/
lemma sortUpdate_count {K : Type} (mdl : KalmanModel K) (solver : Solver)
    (st : SortState K) (dets : List Box) :
    (sortUpdate mdl solver st dets).2.count =
      st.count + (sortUpdateCreated mdl solver st dets).length := by
  unfold sortUpdateCreated
  rw [mkNewTrackers_length]
  rfl

lemma sortUpdate_count_le {K : Type} (mdl : KalmanModel K) (solver : Solver)
    (st : SortState K) (dets : List Box) :
    st.count ≤ (sortUpdate mdl solver st dets).2.count := by
  rw [sortUpdate_count]
  exact Nat.le_add_right _ _

lemma sortUpdateCreated_ids {K : Type} (mdl : KalmanModel K) (solver : Solver)
    (st : SortState K) (dets : List Box) :
    (sortUpdateCreated mdl solver st dets).map (fun t => t.id) =
      List.range' st.count (sortUpdateCreated mdl solver st dets).length := by
  unfold sortUpdateCreated
  rw [mkNewTrackers_ids, mkNewTrackers_length]

lemma createdIdsTrace_lower {K : Type} (mdl : KalmanModel K) (solver : Solver) :
    ∀ (inputs : List (List Box)) (st : SortState K) (x : ℕ),
      x ∈ (createdIdsTrace mdl solver st inputs).flatten → st.count ≤ x := by
  intro inputs
  induction inputs with
  | nil => intro st x hx; cases hx
  | cons dets rest ih =>
      intro st x hx
      unfold createdIdsTrace at hx
      rw [List.flatten_cons] at hx
      rcases List.mem_append.mp hx with h | h
      · rw [sortUpdateCreated_ids] at h
        exact (List.mem_range'_1.mp h).1
      · exact le_trans (sortUpdate_count_le mdl solver st dets) (ih _ x h)

lemma createdIdsTrace_pairwise {K : Type} (mdl : KalmanModel K) (solver : Solver) :
    ∀ (inputs : List (List Box)) (st : SortState K),
      List.Pairwise (· < ·) ((createdIdsTrace mdl solver st inputs).flatten) := by
  intro inputs
  induction inputs with
  | nil => intro st; exact List.Pairwise.nil
  | cons dets rest ih =>
      intro st
      unfold createdIdsTrace
      rw [List.flatten_cons, List.pairwise_append]
      refine ⟨?_, ih _, ?_⟩
      · rw [sortUpdateCreated_ids]
        exact List.pairwise_lt_range' _ _
      · intro a ha b hb
        rw [sortUpdateCreated_ids] at ha
        have ha2 := (List.mem_range'_1.mp ha).2
        have hb2 := createdIdsTrace_lower mdl solver rest _ b hb
        rw [sortUpdate_count] at hb2
        omega

/-- C6: along any run of one `Sort` instance (any Kalman behaviour, any
assignment solver, any parameters, any starting value of the id counter,
any sequence of detection batches), the ids assigned to newly created
trackers are strictly increasing in creation order — hence no id is ever
assigned to two distinct tracks. -/
theorem track_ids_strictly_increasing {K : Type} (mdl : KalmanModel K)
    (solver : Solver) (max_age min_hits : ℕ) (iou_threshold : ℚ) (c0 : ℕ)
    (inputs : List (List Box)) :
    List.Pairwise (· < ·)
      ((createdIdsTrace mdl solver (mkSort K max_age min_hits iou_threshold c0)
        inputs).flatten) :=
  createdIdsTrace_pairwise mdl solver inputs _

lemma flagUp_id {K : Type} (mh fc : ℕ) (t : KalmanBoxTracker K) :
    (flagUp mh fc t).id = t.id := by
  unfold flagUp
  split <;> rfl

lemma flagUp_tsu {K : Type} (mh fc : ℕ) (t : KalmanBoxTracker K) :
    (flagUp mh fc t).time_since_update = t.time_since_update := by
  unfold flagUp
  split <;> rfl

lemma flagUp_flag {K : Type} (mh fc : ℕ) (t : KalmanBoxTracker K) :
    (flagUp mh fc t).has_been_returned =
      (t.has_been_returned || emitCondB mh fc t) := by
  unfold flagUp
  split
  · next h => simp [h]
  · next h => simp [Bool.eq_false_iff.mpr h]

lemma deadB_flagUp {K : Type} (ma mh fc : ℕ) (t : KalmanBoxTracker K) :
    deadB ma (flagUp mh fc t) = deadB ma t := by
  unfold deadB
  rw [flagUp_tsu]

lemma dead_not_emit {K : Type} (ma mh fc : ℕ) (t : KalmanBoxTracker K)
    (h : deadB ma t = true) : emitCondB mh fc t = false := by
  unfold deadB at h
  unfold emitCondB
  simp only [decide_eq_true_eq] at h
  have : ¬ t.time_since_update < 1 := by omega
  simp [this]

lemma flagUp_of_dead {K : Type} (ma mh fc : ℕ) (t : KalmanBoxTracker K)
    (h : deadB ma t = true) : flagUp mh fc t = t := by
  unfold flagUp
  rw [dead_not_emit ma mh fc t h]
  rfl

lemma emit_not_dead {K : Type} (ma mh fc : ℕ) (t : KalmanBoxTracker K)
    (h : emitCondB mh fc t = true) : deadB ma t = false := by
  by_cases hd : deadB ma t = true
  · rw [dead_not_emit ma mh fc t hd] at h
    cases h
  · exact Bool.eq_false_iff.mpr hd

lemma ktPredict_id {K : Type} (mdl : KalmanModel K) (t : KalmanBoxTracker K) :
    (ktPredict mdl t).1.id = t.id := rfl

lemma ktPredict_flag {K : Type} (mdl : KalmanModel K) (t : KalmanBoxTracker K) :
    (ktPredict mdl t).1.has_been_returned = t.has_been_returned := rfl

lemma ktUpdate_id {K : Type} (mdl : KalmanModel K) (t : KalmanBoxTracker K)
    (b : Box) : (ktUpdate mdl t b).id = t.id := rfl

lemma ktUpdate_flag {K : Type} (mdl : KalmanModel K) (t : KalmanBoxTracker K)
    (b : Box) : (ktUpdate mdl t b).has_been_returned = t.has_been_returned := rfl

lemma emitLoop_ret {K : Type} (mdl : KalmanModel K) (mh ma fc : ℕ) :
    ∀ L : List (KalmanBoxTracker K),
      (emitLoop mdl mh ma fc L).1 =
        (L.filter (emitCondB mh fc)).map
          (fun t => (mdl.stateBox (flagUp mh fc t).kf, t.id + 1)) := by
  intro L
  induction L with
  | nil => rfl
  | cons trk rest ih =>
      unfold emitLoop
      dsimp only
      by_cases h : emitCondB mh fc trk = true
      · simp [h, ih, flagUp_id, List.filter_cons]
      · rw [Bool.not_eq_true] at h
        simp [h, ih, List.filter_cons]

lemma emitLoop_dis {K : Type} (mdl : KalmanModel K) (mh ma fc : ℕ) :
    ∀ L : List (KalmanBoxTracker K),
      (emitLoop mdl mh ma fc L).2.1 =
        ((L.map (flagUp mh fc)).filter
          (fun t => deadB ma t && t.has_been_returned)).map (fun t => t.id + 1) := by
  intro L
  induction L with
  | nil => rfl
  | cons trk rest ih =>
      unfold emitLoop
      dsimp only
      by_cases h : (deadB ma (flagUp mh fc trk) &&
          (flagUp mh fc trk).has_been_returned) = true
      · simp [h, ih, List.filter_cons]
      · rw [Bool.not_eq_true] at h
        simp [h, ih, List.filter_cons]

lemma emitLoop_kept {K : Type} (mdl : KalmanModel K) (mh ma fc : ℕ) :
    ∀ L : List (KalmanBoxTracker K),
      (emitLoop mdl mh ma fc L).2.2 =
        (L.map (flagUp mh fc)).filter (fun t => ! deadB ma t) := by
  intro L
  induction L with
  | nil => rfl
  | cons trk rest ih =>
      unfold emitLoop
      dsimp only
      by_cases h : deadB ma (flagUp mh fc trk) = true
      · simp [h, ih, List.filter_cons]
      · rw [Bool.not_eq_true] at h
        simp [h, ih, List.filter_cons]

lemma modifyIdx_map_eq {α β : Type} (f : α → α) (g : α → β)
    (hfg : ∀ x, g (f x) = g x) :
    ∀ (i : ℕ) (l : List α), (modifyIdx f i l).map g = l.map g := by
  intro i
  induction i with
  | zero =>
      intro l
      cases l with
      | nil => rfl
      | cons x xs => simp [modifyIdx, hfg]
  | succ n ih =>
      intro l
      cases l with
      | nil => rfl
      | cons x xs => simp [modifyIdx, ih]

lemma applyMatches_map {K β : Type} (mdl : KalmanModel K) (dets : List Box)
    (g : KalmanBoxTracker K → β)
    (hg : ∀ t b, g (ktUpdate mdl t b) = g t) :
    ∀ (ms : List (ℕ × ℕ)) (trks : List (KalmanBoxTracker K)),
      (applyMatches mdl dets ms trks).map g = trks.map g := by
  intro ms
  induction ms with
  | nil => intro trks; rfl
  | cons m rest ih =>
      intro trks
      unfold applyMatches at ih ⊢
      rw [List.foldl_cons, ih, modifyIdx_map_eq]
      intro x
      exact hg x _

lemma survivorsOf_mem {K : Type} (mdl : KalmanModel K) (st : SortState K)
    (t : KalmanBoxTracker K) (b : Box) (h : (t, b) ∈ survivorsOf mdl st) :
    ∃ t0 ∈ st.trackers, (ktPredict mdl t0).1 = t ∧ (ktPredict mdl t0).2 = some b := by
  unfold survivorsOf predictedOf at h
  rcases List.mem_filterMap.mp h with ⟨tb, htb, hf⟩
  rcases List.mem_map.mp htb with ⟨t0, ht0, rfl⟩
  cases hb : (ktPredict mdl t0).2 with
  | none =>
      rw [hb] at hf
      dsimp only at hf
      cases hf
  | some b2 =>
      rw [hb] at hf
      dsimp only at hf
      rw [Option.some.injEq, Prod.mk.injEq] at hf
      exact ⟨t0, ht0, hf.1, by rw [hb, hf.2]⟩

lemma nanDeadOf_mem {K : Type} (mdl : KalmanModel K) (st : SortState K)
    (t : KalmanBoxTracker K) (h : t ∈ nanDeadOf mdl st) :
    ∃ t0 ∈ st.trackers, (ktPredict mdl t0).1 = t ∧ (ktPredict mdl t0).2 = none := by
  unfold nanDeadOf predictedOf at h
  rcases List.mem_filterMap.mp h with ⟨tb, htb, hf⟩
  rcases List.mem_map.mp htb with ⟨t0, ht0, rfl⟩
  cases hb : (ktPredict mdl t0).2 with
  | none =>
      rw [hb] at hf
      dsimp only at hf
      rw [Option.some.injEq] at hf
      exact ⟨t0, ht0, hf, hb⟩
  | some b2 =>
      rw [hb] at hf
      dsimp only at hf
      cases hf

lemma trackers_fate {K : Type} (mdl : KalmanModel K) (st : SortState K)
    (t0 : KalmanBoxTracker K) (h : t0 ∈ st.trackers) :
    (ktPredict mdl t0).1 ∈ nanDeadOf mdl st ∨
      ∃ b, ((ktPredict mdl t0).1, b) ∈ survivorsOf mdl st := by
  have hp : ktPredict mdl t0 ∈ predictedOf mdl st := by
    unfold predictedOf
    exact List.mem_map_of_mem _ h
  rcases hb : (ktPredict mdl t0).2 with _ | b
  · left
    unfold nanDeadOf
    exact List.mem_filterMap.mpr ⟨_, hp, by rw [hb]⟩
  · right
    refine ⟨b, ?_⟩
    unfold survivorsOf
    exact List.mem_filterMap.mpr ⟨_, hp, by rw [hb]⟩

/-- Distinctness of the tracker ids plus the bound by the id counter: the
state invariant carried along a run. -/
def SortWF {K : Type} (st : SortState K) : Prop :=
  (st.trackers.map fun t => t.id).Nodup ∧ ∀ t ∈ st.trackers, t.id < st.count

lemma survivors_ids_sublist {K : Type} (mdl : KalmanModel K) (st : SortState K) :
    List.Sublist ((survivorsOf mdl st).map fun p => p.1.id)
      (st.trackers.map fun t => t.id) := by
  unfold survivorsOf predictedOf
  induction st.trackers with
  | nil => simp
  | cons t0 L ih =>
      rw [List.map_cons, List.filterMap_cons]
      cases hb : (ktPredict mdl t0).2 with
      | none =>
          dsimp only
          rw [List.map_cons]
          exact List.Sublist.cons _ ih
      | some b =>
          dsimp only
          rw [List.map_cons, List.map_cons]
          exact List.Sublist.cons₂ _ ih

lemma nanDead_ids_sublist {K : Type} (mdl : KalmanModel K) (st : SortState K) :
    List.Sublist ((nanDeadOf mdl st).map fun t => t.id)
      (st.trackers.map fun t => t.id) := by
  unfold nanDeadOf predictedOf
  induction st.trackers with
  | nil => simp
  | cons t0 L ih =>
      rw [List.map_cons, List.filterMap_cons]
      cases hb : (ktPredict mdl t0).2 with
      | none =>
          dsimp only
          rw [List.map_cons, List.map_cons]
          exact List.Sublist.cons₂ _ ih
      | some b =>
          dsimp only
          rw [List.map_cons]
          exact List.Sublist.cons _ ih

lemma surv_nan_count {K : Type} (mdl : KalmanModel K) (st : SortState K) (i : ℕ) :
    ((survivorsOf mdl st).map fun p => p.1.id).count i +
      ((nanDeadOf mdl st).map fun t => t.id).count i =
      (st.trackers.map fun t => t.id).count i := by
  unfold survivorsOf nanDeadOf predictedOf
  induction st.trackers with
  | nil => rfl
  | cons t0 L ih =>
      rw [List.map_cons, List.filterMap_cons, List.filterMap_cons]
      cases hb : (ktPredict mdl t0).2 with
      | none =>
          dsimp only
          rw [List.map_cons, List.map_cons, List.count_cons, List.count_cons]
          have hid : (ktPredict mdl t0).1.id = t0.id := rfl
          rw [hid]
          omega
      | some b =>
          dsimp only
          rw [List.map_cons, List.map_cons, List.count_cons, List.count_cons]
          have hid : (ktPredict mdl t0).1.id = t0.id := rfl
          rw [hid]
          omega

lemma surv_nan_disjoint {K : Type} (mdl : KalmanModel K) (st : SortState K)
    (hnd : (st.trackers.map fun t => t.id).Nodup) (i : ℕ)
    (hs : i ∈ (survivorsOf mdl st).map fun p => p.1.id)
    (hn : i ∈ (nanDeadOf mdl st).map fun t => t.id) : False := by
  have hc := surv_nan_count mdl st i
  have h1 : 1 ≤ ((survivorsOf mdl st).map fun p => p.1.id).count i :=
    List.one_le_count_iff.mpr hs
  have h2 : 1 ≤ ((nanDeadOf mdl st).map fun t => t.id).count i :=
    List.one_le_count_iff.mpr hn
  have h3 : (st.trackers.map fun t => t.id).count i ≤ 1 :=
    List.nodup_iff_count_le_one.mp hnd i
  omega

lemma updated_idflag {K : Type} (mdl : KalmanModel K) (solver : Solver)
    (st : SortState K) (dets : List Box) :
    (updatedOf mdl solver st dets).map (fun t => (t.id, t.has_been_returned)) =
      ((survivorsOf mdl st).map Prod.fst).map
        (fun t => (t.id, t.has_been_returned)) := by
  unfold updatedOf
  exact applyMatches_map mdl dets
    (fun t => (t.id, t.has_been_returned)) (fun t b => rfl) _ _

lemma updated_ids {K : Type} (mdl : KalmanModel K) (solver : Solver)
    (st : SortState K) (dets : List Box) :
    (updatedOf mdl solver st dets).map (fun t => t.id) =
      ((survivorsOf mdl st).map Prod.fst).map (fun t => t.id) := by
  unfold updatedOf
  exact applyMatches_map mdl dets (fun t => t.id) (fun t b => rfl) _ _

lemma mkNewTrackers_mem {K : Type} (mdl : KalmanModel K) (dets : List Box) :
    ∀ (um : List ℕ) (c : ℕ) (t : KalmanBoxTracker K),
      t ∈ mkNewTrackers mdl dets um c →
        t.time_since_update = 0 ∧ t.has_been_returned = false ∧
          c ≤ t.id ∧ t.id < c + um.length := by
  intro um
  induction um with
  | nil => intro c t ht; cases ht
  | cons i rest ih =>
      intro c t ht
      rcases List.mem_cons.mp ht with h | h
      · subst h
        refine ⟨rfl, rfl, le_refl c, ?_⟩
        show c < c + (rest.length + 1)
        omega
      · rcases ih (c + 1) t h with ⟨h1, h2, h3, h4⟩
        refine ⟨h1, h2, by omega, ?_⟩
        rw [List.length_cons]
        omega

lemma survFst_ids_eq {K : Type} (mdl : KalmanModel K) (st : SortState K) :
    ((survivorsOf mdl st).map Prod.fst).map (fun t => t.id) =
      (survivorsOf mdl st).map (fun p => p.1.id) := by
  rw [List.map_map]
  rfl

lemma allTrackers_ids_decomp {K : Type} (mdl : KalmanModel K) (solver : Solver)
    (st : SortState K) (dets : List Box) :
    (allTrackersOf mdl solver st dets).map (fun t => t.id) =
      (survivorsOf mdl st).map (fun p => p.1.id) ++
        List.range' st.count (arOf mdl solver st dets).unmatched_dets.length := by
  unfold allTrackersOf sortUpdateCreated
  rw [List.map_append, updated_ids, mkNewTrackers_ids, survFst_ids_eq]

lemma trackers_id_lt {K : Type} (st : SortState K) (h : SortWF st) (i : ℕ)
    (hi : i ∈ st.trackers.map fun t => t.id) : i < st.count := by
  rcases List.mem_map.mp hi with ⟨t, ht, rfl⟩
  exact h.2 t ht

lemma allTrackers_nodup {K : Type} (mdl : KalmanModel K) (solver : Solver)
    (st : SortState K) (dets : List Box) (h : SortWF st) :
    ((allTrackersOf mdl solver st dets).map (fun t => t.id)).Nodup := by
  rw [allTrackers_ids_decomp]
  apply List.Nodup.append
  · exact (survivors_ids_sublist mdl st).nodup h.1
  · exact List.nodup_range' _ _
  · intro a ha hb
    have h1 : a < st.count :=
      trackers_id_lt st h a ((survivors_ids_sublist mdl st).subset ha)
    have h2 : st.count ≤ a := (List.mem_range'_1.mp hb).1
    omega

lemma allTrackers_id_bound {K : Type} (mdl : KalmanModel K) (solver : Solver)
    (st : SortState K) (dets : List Box) (h : SortWF st) :
    ∀ t ∈ allTrackersOf mdl solver st dets,
      t.id < st.count + (arOf mdl solver st dets).unmatched_dets.length := by
  intro t ht
  have : t.id ∈ (allTrackersOf mdl solver st dets).map (fun t => t.id) :=
    List.mem_map_of_mem _ ht
  rw [allTrackers_ids_decomp] at this
  rcases List.mem_append.mp this with h1 | h1
  · have := trackers_id_lt st h t.id ((survivors_ids_sublist mdl st).subset h1)
    omega
  · exact (List.mem_range'_1.mp h1).2

lemma sortUpdate_trackers_eq {K : Type} (mdl : KalmanModel K) (solver : Solver)
    (st : SortState K) (dets : List Box) :
    (sortUpdate mdl solver st dets).2.trackers =
      ((allTrackersOf mdl solver st dets).map
        (flagUp st.min_hits (st.frame_count + 1))).filter
        (fun t => ! deadB st.max_age t) := by
  show (emitLoop mdl st.min_hits st.max_age (st.frame_count + 1)
    (allTrackersOf mdl solver st dets).reverse).2.2.reverse = _
  rw [emitLoop_kept, List.map_reverse, List.filter_reverse, List.reverse_reverse]

def presentAt {K : Type} (st : SortState K) (i : ℕ) : Prop :=
  ∃ t ∈ st.trackers, t.id = i

def flaggedAt {K : Type} (st : SortState K) (i : ℕ) : Prop :=
  ∃ t ∈ st.trackers, t.id = i ∧ t.has_been_returned = true

lemma present_sortUpdate {K : Type} (mdl : KalmanModel K) (solver : Solver)
    (st : SortState K) (dets : List Box) (i : ℕ) :
    presentAt (sortUpdate mdl solver st dets).2 i ↔
      ∃ t ∈ allTrackersOf mdl solver st dets,
        t.id = i ∧ deadB st.max_age t = false := by
  unfold presentAt
  rw [sortUpdate_trackers_eq]
  constructor
  · rintro ⟨t', ht', hid⟩
    rcases List.mem_filter.mp ht' with ⟨hmem, hdead⟩
    rcases List.mem_map.mp hmem with ⟨t, ht, rfl⟩
    refine ⟨t, ht, ?_, ?_⟩
    · rw [← hid, flagUp_id]
    · rw [deadB_flagUp] at hdead
      simpa using hdead
  · rintro ⟨t, ht, hid, hdead⟩
    refine ⟨flagUp st.min_hits (st.frame_count + 1) t, ?_, by rw [flagUp_id, hid]⟩
    refine List.mem_filter.mpr ⟨List.mem_map_of_mem _ ht, ?_⟩
    rw [deadB_flagUp, hdead]
    rfl

lemma flagged_sortUpdate {K : Type} (mdl : KalmanModel K) (solver : Solver)
    (st : SortState K) (dets : List Box) (i : ℕ) :
    flaggedAt (sortUpdate mdl solver st dets).2 i ↔
      ∃ t ∈ allTrackersOf mdl solver st dets,
        t.id = i ∧ deadB st.max_age t = false ∧
          (t.has_been_returned || emitCondB st.min_hits (st.frame_count + 1) t)
            = true := by
  unfold flaggedAt
  rw [sortUpdate_trackers_eq]
  constructor
  · rintro ⟨t', ht', hid, hflag⟩
    rcases List.mem_filter.mp ht' with ⟨hmem, hdead⟩
    rcases List.mem_map.mp hmem with ⟨t, ht, rfl⟩
    refine ⟨t, ht, ?_, ?_, ?_⟩
    · rw [← hid, flagUp_id]
    · rw [deadB_flagUp] at hdead
      simpa using hdead
    · rw [← flagUp_flag]
      exact hflag
  · rintro ⟨t, ht, hid, hdead, hflag⟩
    refine ⟨flagUp st.min_hits (st.frame_count + 1) t, ?_, by rw [flagUp_id, hid],
      by rw [flagUp_flag]; exact hflag⟩
    refine List.mem_filter.mpr ⟨List.mem_map_of_mem _ ht, ?_⟩
    rw [deadB_flagUp, hdead]
    rfl

lemma ret_ids_sortUpdate {K : Type} (mdl : KalmanModel K) (solver : Solver)
    (st : SortState K) (dets : List Box) (e : ℕ) :
    e ∈ ((sortUpdate mdl solver st dets).1.1.map Prod.snd) ↔
      ∃ t ∈ allTrackersOf mdl solver st dets,
        emitCondB st.min_hits (st.frame_count + 1) t = true ∧ e = t.id + 1 := by
  have h1 : (sortUpdate mdl solver st dets).1.1 =
      (emitLoop mdl st.min_hits st.max_age (st.frame_count + 1)
        (allTrackersOf mdl solver st dets).reverse).1 := rfl
  rw [h1, emitLoop_ret, List.map_map]
  constructor
  · intro h
    rcases List.mem_map.mp h with ⟨t, ht, rfl⟩
    rcases List.mem_filter.mp ht with ⟨hmem, hcond⟩
    exact ⟨t, List.mem_reverse.mp hmem, hcond, rfl⟩
  · rintro ⟨t, ht, hcond, rfl⟩
    exact List.mem_map.mpr ⟨t,
      List.mem_filter.mpr ⟨List.mem_reverse.mpr ht, hcond⟩, rfl⟩

lemma dis_sortUpdate {K : Type} (mdl : KalmanModel K) (solver : Solver)
    (st : SortState K) (dets : List Box) (e : ℕ) :
    e ∈ (sortUpdate mdl solver st dets).1.2 ↔
      (∃ t ∈ nanDeadOf mdl st, t.has_been_returned = true ∧ e = t.id + 1) ∨
      (∃ t ∈ allTrackersOf mdl solver st dets,
        deadB st.max_age t = true ∧ t.has_been_returned = true ∧ e = t.id + 1) := by
  have h1 : (sortUpdate mdl solver st dets).1.2 =
      disFromNanOf mdl st ++
        (emitLoop mdl st.min_hits st.max_age (st.frame_count + 1)
          (allTrackersOf mdl solver st dets).reverse).2.1 := rfl
  rw [h1, List.mem_append, emitLoop_dis]
  constructor
  · rintro (h | h)
    · left
      unfold disFromNanOf at h
      rw [List.mem_reverse] at h
      rcases List.mem_map.mp h with ⟨t, ht, rfl⟩
      rcases List.mem_filter.mp ht with ⟨hmem, hflag⟩
      exact ⟨t, hmem, hflag, rfl⟩
    · right
      rcases List.mem_map.mp h with ⟨t', ht', rfl⟩
      rcases List.mem_filter.mp ht' with ⟨hmem, hcond⟩
      rcases List.mem_map.mp hmem with ⟨t, ht, rfl⟩
      rw [Bool.and_eq_true, deadB_flagUp] at hcond
      have heq : flagUp st.min_hits (st.frame_count + 1) t = t :=
        flagUp_of_dead _ _ _ t hcond.1
      rw [heq] at hcond ⊢
      exact ⟨t, List.mem_reverse.mp ht, hcond.1, hcond.2, rfl⟩
  · rintro (⟨t, ht, hflag, rfl⟩ | ⟨t, ht, hdead, hflag, rfl⟩)
    · left
      unfold disFromNanOf
      rw [List.mem_reverse]
      exact List.mem_map.mpr ⟨t, List.mem_filter.mpr ⟨ht, hflag⟩, rfl⟩
    · right
      have heq : flagUp st.min_hits (st.frame_count + 1) t = t :=
        flagUp_of_dead _ _ _ t hdead
      refine List.mem_map.mpr ⟨t, ?_, rfl⟩
      refine List.mem_filter.mpr ⟨?_, ?_⟩
      · rw [← heq]
        exact List.mem_map_of_mem _ (List.mem_reverse.mpr ht)
      · rw [Bool.and_eq_true]
        exact ⟨hdead, hflag⟩

lemma SortWF_init {K : Type} (max_age min_hits : ℕ) (τ : ℚ) (c0 : ℕ) :
    SortWF (mkSort K max_age min_hits τ c0) := by
  constructor
  · exact List.nodup_nil
  · intro t ht
    cases ht

lemma SortWF_step {K : Type} (mdl : KalmanModel K) (solver : Solver)
    (st : SortState K) (dets : List Box) (h : SortWF st) :
    SortWF (sortUpdate mdl solver st dets).2 := by
  constructor
  · have hsub : List.Sublist
        ((sortUpdate mdl solver st dets).2.trackers.map fun t => t.id)
        ((allTrackersOf mdl solver st dets).map fun t => t.id) := by
      rw [sortUpdate_trackers_eq]
      have hfil : List.Sublist
          (((allTrackersOf mdl solver st dets).map
            (flagUp st.min_hits (st.frame_count + 1))).filter
            (fun t => ! deadB st.max_age t))
          ((allTrackersOf mdl solver st dets).map
            (flagUp st.min_hits (st.frame_count + 1))) :=
        List.filter_sublist _
      have := hfil.map (fun t => t.id)
      rw [List.map_map] at this
      have hcomp : ((fun t => t.id) ∘ flagUp st.min_hits (st.frame_count + 1) :
          KalmanBoxTracker K → ℕ) = fun t => t.id := by
        funext t
        exact flagUp_id _ _ t
      rw [hcomp] at this
      exact this
    exact hsub.nodup (allTrackers_nodup mdl solver st dets h)
  · intro t ht
    rw [sortUpdate_trackers_eq] at ht
    rcases List.mem_filter.mp ht with ⟨hmem, _⟩
    rcases List.mem_map.mp hmem with ⟨t0, ht0, rfl⟩
    rw [flagUp_id]
    have := allTrackers_id_bound mdl solver st dets h t0 ht0
    have hc : (sortUpdate mdl solver st dets).2.count =
        st.count + (arOf mdl solver st dets).unmatched_dets.length := rfl
    omega

lemma present_sortUpdate_origin {K : Type} (mdl : KalmanModel K) (solver : Solver)
    (st : SortState K) (dets : List Box) (i : ℕ)
    (hp : presentAt (sortUpdate mdl solver st dets).2 i) :
    presentAt st i ∨ st.count ≤ i := by
  rcases (present_sortUpdate mdl solver st dets i).mp hp with ⟨t, ht, rfl, _⟩
  unfold allTrackersOf at ht
  rcases List.mem_append.mp ht with h1 | h1
  · left
    have : t.id ∈ (updatedOf mdl solver st dets).map (fun t => t.id) :=
      List.mem_map_of_mem _ h1
    rw [updated_ids, survFst_ids_eq] at this
    rcases List.mem_map.mp this with ⟨p, hp2, hpid⟩
    rcases survivorsOf_mem mdl st p.1 p.2 (by
      rcases p with ⟨a, b⟩
      exact hp2) with ⟨t0, ht0, hpred, _⟩
    exact ⟨t0, ht0, by rw [← hpid, ← hpred]; rfl⟩
  · right
    have := (mkNewTrackers_mem mdl dets _ st.count t h1).2.2.1
    exact this

lemma allTrackers_flag_origin {K : Type} (mdl : KalmanModel K) (solver : Solver)
    (st : SortState K) (dets : List Box) (t : KalmanBoxTracker K)
    (ht : t ∈ allTrackersOf mdl solver st dets)
    (hflag : t.has_been_returned = true) :
    ∃ t0 ∈ st.trackers, t0.id = t.id ∧ t0.has_been_returned = true := by
  unfold allTrackersOf at ht
  rcases List.mem_append.mp ht with h1 | h1
  · have : (t.id, t.has_been_returned) ∈
        (updatedOf mdl solver st dets).map (fun t => (t.id, t.has_been_returned)) :=
      List.mem_map_of_mem _ h1
    rw [updated_idflag] at this
    rcases List.mem_map.mp this with ⟨s, hs, hsid⟩
    rcases List.mem_map.mp hs with ⟨p, hp, rfl⟩
    rcases p with ⟨a, b⟩
    rcases survivorsOf_mem mdl st a b hp with ⟨t0, ht0, hpred, _⟩
    rw [Prod.mk.injEq] at hsid
    refine ⟨t0, ht0, ?_, ?_⟩
    · rw [← hsid.1, ← hpred]
      rfl
    · rw [← hflag, ← hsid.2, ← hpred]
      rfl
  · have := (mkNewTrackers_mem mdl dets _ st.count t h1).2.1
    rw [hflag] at this
    cases this

lemma surv_flag_to_allTrackers {K : Type} (mdl : KalmanModel K) (solver : Solver)
    (st : SortState K) (dets : List Box) (t0 : KalmanBoxTracker K)
    (ht0 : t0 ∈ st.trackers) (b : Box)
    (hsurv : ((ktPredict mdl t0).1, b) ∈ survivorsOf mdl st) :
    ∃ t ∈ allTrackersOf mdl solver st dets,
      t.id = t0.id ∧ t.has_been_returned = t0.has_been_returned := by
  have hmem : (t0.id, t0.has_been_returned) ∈
      ((survivorsOf mdl st).map Prod.fst).map
        (fun t => (t.id, t.has_been_returned)) := by
    refine List.mem_map.mpr ⟨(ktPredict mdl t0).1, List.mem_map_of_mem _ hsurv, rfl⟩
  rw [← updated_idflag mdl solver st dets] at hmem
  rcases List.mem_map.mp hmem with ⟨t, ht, htid⟩
  rw [Prod.mk.injEq] at htid
  refine ⟨t, ?_, htid.1, htid.2⟩
  unfold allTrackersOf
  exact List.mem_append.mpr (Or.inl ht)

def stateAfter {K : Type} (mdl : KalmanModel K) (solver : Solver)
    (st0 : SortState K) (inputs : List (List Box)) (k : ℕ) : SortState K :=
  sortRun mdl solver st0 (inputs.take k)

def emittedIdsAt (outs : List (List (Box × ℕ) × List ℕ)) (j : ℕ) : List ℕ :=
  ((outs.getD j ([], [])).1).map Prod.snd

def disappearedAt (outs : List (List (Box × ℕ) × List ℕ)) (k : ℕ) : List ℕ :=
  (outs.getD k ([], [])).2

lemma sortRun_append {K : Type} (mdl : KalmanModel K) (solver : Solver) :
    ∀ (a b : List (List Box)) (st : SortState K),
      sortRun mdl solver st (a ++ b) = sortRun mdl solver (sortRun mdl solver st a) b := by
  intro a
  induction a with
  | nil => intro b st; rfl
  | cons x xs ih =>
      intro b st
      rw [List.cons_append]
      show sortRun mdl solver (sortUpdate mdl solver st x).2 (xs ++ b) = _
      rw [ih]
      rfl

lemma stateAfter_succ {K : Type} (mdl : KalmanModel K) (solver : Solver)
    (st0 : SortState K) (inputs : List (List Box)) (k : ℕ)
    (hk : k < inputs.length) :
    stateAfter mdl solver st0 inputs (k + 1) =
      (sortUpdate mdl solver (stateAfter mdl solver st0 inputs k)
        (inputs.getD k [])).2 := by
  unfold stateAfter
  rw [List.take_succ, sortRun_append]
  have hget : inputs[k]? = some (inputs.getD k []) := by
    simp [List.getD_eq_getElem?_getD, List.getElem?_eq_getElem hk]
  rw [hget]
  rfl

lemma stateAfter_stable {K : Type} (mdl : KalmanModel K) (solver : Solver)
    (st0 : SortState K) (inputs : List (List Box)) (k : ℕ)
    (hk : inputs.length ≤ k) :
    stateAfter mdl solver st0 inputs k =
      stateAfter mdl solver st0 inputs inputs.length := by
  unfold stateAfter
  rw [List.take_of_length_le hk, List.take_of_length_le (le_refl _)]

lemma sortOutputs_length {K : Type} (mdl : KalmanModel K) (solver : Solver) :
    ∀ (inputs : List (List Box)) (st : SortState K),
      (sortOutputs mdl solver st inputs).length = inputs.length := by
  intro inputs
  induction inputs with
  | nil => intro st; rfl
  | cons x xs ih =>
      intro st
      unfold sortOutputs
      rw [List.length_cons, List.length_cons, ih]

lemma sortOutputs_getD {K : Type} (mdl : KalmanModel K) (solver : Solver) :
    ∀ (inputs : List (List Box)) (st0 : SortState K) (k : ℕ),
      k < inputs.length →
      (sortOutputs mdl solver st0 inputs).getD k ([], []) =
        (sortUpdate mdl solver (stateAfter mdl solver st0 inputs k)
          (inputs.getD k [])).1 := by
  intro inputs
  induction inputs with
  | nil => intro st0 k hk; cases hk
  | cons x xs ih =>
      intro st0 k hk
      cases k with
      | zero => rfl
      | succ k =>
          have hk2 : k < xs.length := by
            rw [List.length_cons] at hk
            omega
          unfold sortOutputs
          have h1 : (((sortUpdate mdl solver st0 x).1 ::
              sortOutputs mdl solver (sortUpdate mdl solver st0 x).2 xs).getD
                (k + 1) ([], [])) =
              (sortOutputs mdl solver (sortUpdate mdl solver st0 x).2 xs).getD
                k ([], []) := rfl
          rw [h1, ih _ k hk2]
          rfl

lemma sortOutputs_getD_big {K : Type} (mdl : KalmanModel K) (solver : Solver)
    (inputs : List (List Box)) (st0 : SortState K) (k : ℕ)
    (hk : inputs.length ≤ k) :
    (sortOutputs mdl solver st0 inputs).getD k ([], []) = ([], []) := by
  apply List.getD_eq_default
  rw [sortOutputs_length]
  exact hk

lemma sortRun_WF {K : Type} (mdl : KalmanModel K) (solver : Solver) :
    ∀ (l : List (List Box)) (st : SortState K), SortWF st →
      SortWF (sortRun mdl solver st l) := by
  intro l
  induction l with
  | nil => intro st h; exact h
  | cons x xs ih =>
      intro st h
      exact ih _ (SortWF_step mdl solver st x h)

lemma stateAfter_WF {K : Type} (mdl : KalmanModel K) (solver : Solver)
    (st0 : SortState K) (inputs : List (List Box)) (k : ℕ) (h : SortWF st0) :
    SortWF (stateAfter mdl solver st0 inputs k) :=
  sortRun_WF mdl solver _ st0 h

lemma sortRun_count_le {K : Type} (mdl : KalmanModel K) (solver : Solver) :
    ∀ (l : List (List Box)) (st : SortState K),
      st.count ≤ (sortRun mdl solver st l).count := by
  intro l
  induction l with
  | nil => intro st; exact le_refl _
  | cons x xs ih =>
      intro st
      exact le_trans (sortUpdate_count_le mdl solver st x) (ih _)

lemma stateAfter_count_mono {K : Type} (mdl : KalmanModel K) (solver : Solver)
    (st0 : SortState K) (inputs : List (List Box)) (k l : ℕ) (hkl : k ≤ l) :
    (stateAfter mdl solver st0 inputs k).count ≤
      (stateAfter mdl solver st0 inputs l).count := by
  unfold stateAfter
  have : l = k + (l - k) := by omega
  rw [this, List.take_add, sortRun_append]
  exact sortRun_count_le mdl solver _ _

lemma presentAt_lt_count {K : Type} (st : SortState K) (h : SortWF st) (i : ℕ)
    (hp : presentAt st i) : i < st.count := by
  rcases hp with ⟨t, ht, rfl⟩
  exact h.2 t ht

lemma emittedIdsAt_bound {K : Type} (mdl : KalmanModel K) (solver : Solver)
    (st0 : SortState K) (inputs : List (List Box)) (hWF0 : SortWF st0) (j e : ℕ)
    (he : e ∈ emittedIdsAt (sortOutputs mdl solver st0 inputs) j) :
    ∃ i, e = i + 1 ∧ i < (stateAfter mdl solver st0 inputs (j + 1)).count := by
  by_cases hj : j < inputs.length
  · unfold emittedIdsAt at he
    rw [sortOutputs_getD mdl solver inputs st0 j hj] at he
    rcases (ret_ids_sortUpdate mdl solver _ _ e).mp he with ⟨t, ht, _, rfl⟩
    refine ⟨t.id, rfl, ?_⟩
    rw [stateAfter_succ mdl solver st0 inputs j hj, sortUpdate_count]
    have hb := allTrackers_id_bound mdl solver _ _
      (stateAfter_WF mdl solver st0 inputs j hWF0) t ht
    have hl : (sortUpdateCreated mdl solver (stateAfter mdl solver st0 inputs j)
        (inputs.getD j [])).length =
        (arOf mdl solver (stateAfter mdl solver st0 inputs j)
          (inputs.getD j [])).unmatched_dets.length := by
      unfold sortUpdateCreated
      rw [mkNewTrackers_length]
    omega
  · unfold emittedIdsAt at he
    rw [sortOutputs_getD_big mdl solver inputs st0 j (by omega)] at he
    cases he

lemma emittedIdsAt_empty_big {K : Type} (mdl : KalmanModel K) (solver : Solver)
    (st0 : SortState K) (inputs : List (List Box)) (j : ℕ)
    (hj : inputs.length ≤ j) :
    emittedIdsAt (sortOutputs mdl solver st0 inputs) j = [] := by
  unfold emittedIdsAt
  rw [sortOutputs_getD_big mdl solver inputs st0 j hj]
  rfl

lemma disappearedAt_empty_big {K : Type} (mdl : KalmanModel K) (solver : Solver)
    (st0 : SortState K) (inputs : List (List Box)) (j : ℕ)
    (hj : inputs.length ≤ j) :
    disappearedAt (sortOutputs mdl solver st0 inputs) j = [] := by
  unfold disappearedAt
  rw [sortOutputs_getD_big mdl solver inputs st0 j hj]

lemma flag_iff_emitted {K : Type} (mdl : KalmanModel K) (solver : Solver)
    (st0 : SortState K) (inputs : List (List Box)) (h0 : st0.trackers = [])
    (hWF0 : SortWF st0) :
    ∀ (k : ℕ), ∀ t ∈ (stateAfter mdl solver st0 inputs k).trackers,
      (t.has_been_returned = true ↔
        ∃ j < k, t.id + 1 ∈ emittedIdsAt (sortOutputs mdl solver st0 inputs) j) := by
  intro k
  induction k with
  | zero =>
      intro t ht
      have : (stateAfter mdl solver st0 inputs 0).trackers = [] := h0
      rw [this] at ht
      cases ht
  | succ k ih =>
      intro t' ht'
      by_cases hk : k < inputs.length
      · have hst : stateAfter mdl solver st0 inputs (k + 1) =
            (sortUpdate mdl solver (stateAfter mdl solver st0 inputs k)
              (inputs.getD k [])).2 := stateAfter_succ mdl solver st0 inputs k hk
        set st := stateAfter mdl solver st0 inputs k with hstdef
        set dets := inputs.getD k [] with hdets
        have hWF : SortWF st := stateAfter_WF mdl solver st0 inputs k hWF0
        rw [hst, sortUpdate_trackers_eq] at ht'
        rcases List.mem_filter.mp ht' with ⟨hmem, hdead⟩
        rcases List.mem_map.mp hmem with ⟨t, ht, rfl⟩
        rw [flagUp_flag, flagUp_id]
        constructor
        · intro hor
          rcases Bool.or_eq_true _ _ |>.mp hor with hflag | hemit
          · rcases allTrackers_flag_origin mdl solver st dets t ht hflag with
              ⟨t0, ht0, hid, hf0⟩
            rcases (ih t0 ht0).mp hf0 with ⟨j, hj, hej⟩
            exact ⟨j, by omega, by rw [← hid]; exact hej⟩
          · refine ⟨k, by omega, ?_⟩
            unfold emittedIdsAt
            rw [sortOutputs_getD mdl solver inputs st0 k hk]
            exact (ret_ids_sortUpdate mdl solver st dets _).mpr ⟨t, ht, hemit, rfl⟩
        · rintro ⟨j, hj, hej⟩
          rcases Nat.lt_succ_iff_lt_or_eq.mp hj with hjk | hjeq
          · have hbound := emittedIdsAt_bound mdl solver st0 inputs hWF0 j _ hej
            rcases hbound with ⟨i, hei, hic⟩
            have hii : i = t.id := by omega
            have hcount : t.id < st.count := by
              have hmono := stateAfter_count_mono mdl solver st0 inputs (j + 1) k
                (by omega)
              rw [← hstdef] at hmono
              omega
            unfold allTrackersOf at ht
            rcases List.mem_append.mp ht with h1 | h1
            · have hmm : (t.id, t.has_been_returned) ∈
                  (updatedOf mdl solver st dets).map
                    (fun t => (t.id, t.has_been_returned)) :=
                List.mem_map_of_mem _ h1
              rw [updated_idflag] at hmm
              rcases List.mem_map.mp hmm with ⟨s, hs, hsid⟩
              rcases List.mem_map.mp hs with ⟨p, hp, rfl⟩
              rcases p with ⟨a, b⟩
              rcases survivorsOf_mem mdl st a b hp with ⟨t0, ht0, hpred, _⟩
              rw [Prod.mk.injEq] at hsid
              have hid0 : t0.id = t.id := by rw [← hsid.1, ← hpred]; rfl
              have hfl0 : t0.has_been_returned = t.has_been_returned := by
                rw [← hsid.2, ← hpred]; rfl
              have : t0.has_been_returned = true :=
                (ih t0 ht0).mpr ⟨j, hjk, by rw [hid0]; exact hej⟩
              rw [hfl0] at this
              rw [this]
              rfl
            · have := (mkNewTrackers_mem mdl dets _ st.count t h1).2.2.1
              omega
          · rw [hjeq] at hej
            unfold emittedIdsAt at hej
            rw [sortOutputs_getD mdl solver inputs st0 k hk] at hej
            rcases (ret_ids_sortUpdate mdl solver st dets _).mp hej with
              ⟨te, hte, hemit, heq⟩
            have hteid : te.id = t.id := by omega
            have hmm := List.inj_on_of_nodup_map
              (allTrackers_nodup mdl solver st dets hWF) hte ht hteid
            rw [← hmm, hemit]
            simp
      · have hs1 : stateAfter mdl solver st0 inputs (k + 1) =
            stateAfter mdl solver st0 inputs inputs.length :=
          stateAfter_stable mdl solver st0 inputs (k + 1) (by omega)
        have hs2 : stateAfter mdl solver st0 inputs k =
            stateAfter mdl solver st0 inputs inputs.length :=
          stateAfter_stable mdl solver st0 inputs k (by omega)
        rw [hs1, ← hs2] at ht'
        rw [ih t' ht']
        constructor
        · rintro ⟨j, hj, hej⟩
          exact ⟨j, by omega, hej⟩
        · rintro ⟨j, hj, hej⟩
          rcases Nat.lt_succ_iff_lt_or_eq.mp hj with hjk | hjeq
          · exact ⟨j, hjk, hej⟩
          · rw [emittedIdsAt_empty_big mdl solver st0 inputs j (by omega)] at hej
            cases hej

lemma dis_char {K : Type} (mdl : KalmanModel K) (solver : Solver)
    (st0 : SortState K) (inputs : List (List Box)) (hWF0 : SortWF st0)
    (k : ℕ) (hk : k < inputs.length) (i : ℕ) :
    (i + 1) ∈ disappearedAt (sortOutputs mdl solver st0 inputs) k ↔
      (presentAt (stateAfter mdl solver st0 inputs k) i ∧
        ¬ presentAt (stateAfter mdl solver st0 inputs (k + 1)) i ∧
        flaggedAt (stateAfter mdl solver st0 inputs k) i) := by
  set st := stateAfter mdl solver st0 inputs k with hstdef
  set dets := inputs.getD k [] with hdets
  have hWF : SortWF st := stateAfter_WF mdl solver st0 inputs k hWF0
  have hdis : disappearedAt (sortOutputs mdl solver st0 inputs) k =
      (sortUpdate mdl solver st dets).1.2 := by
    unfold disappearedAt
    rw [sortOutputs_getD mdl solver inputs st0 k hk]
  have hnext : stateAfter mdl solver st0 inputs (k + 1) =
      (sortUpdate mdl solver st dets).2 := stateAfter_succ mdl solver st0 inputs k hk
  rw [hdis, hnext]
  constructor
  · intro hmem
    rcases (dis_sortUpdate mdl solver st dets _).mp hmem with
      ⟨t, ht, hflag, heq⟩ | ⟨t, ht, hdead, hflag, heq⟩
    · have htid : t.id = i := by omega
      rcases nanDeadOf_mem mdl st t ht with ⟨t0, ht0, hpred, hnone⟩
      have hid0 : t0.id = i := by rw [← htid, ← hpred]; rfl
      have hfl0 : t0.has_been_returned = true := by
        rw [← hflag, ← hpred]; rfl
      refine ⟨⟨t0, ht0, hid0⟩, ?_, ⟨t0, ht0, hid0, hfl0⟩⟩
      intro hp
      rcases (present_sortUpdate mdl solver st dets i).mp hp with
        ⟨t2, ht2, ht2id, ht2dead⟩
      unfold allTrackersOf at ht2
      rcases List.mem_append.mp ht2 with h1 | h1
      · have hin : t2.id ∈ (updatedOf mdl solver st dets).map (fun t => t.id) :=
          List.mem_map_of_mem _ h1
        rw [updated_ids, survFst_ids_eq] at hin
        have hnan : i ∈ (nanDeadOf mdl st).map (fun t => t.id) := by
          refine List.mem_map.mpr ⟨t, ht, htid⟩
        rw [ht2id] at hin
        exact surv_nan_disjoint mdl st hWF.1 i hin hnan
      · have := (mkNewTrackers_mem mdl dets _ st.count t2 h1).2.2.1
        have hlt : i < st.count := presentAt_lt_count st hWF i ⟨t0, ht0, hid0⟩
        omega
    · have htid : t.id = i := by omega
      have hnotnew : t ∈ updatedOf mdl solver st dets := by
        unfold allTrackersOf at ht
        rcases List.mem_append.mp ht with h1 | h1
        · exact h1
        · have := (mkNewTrackers_mem mdl dets _ st.count t h1).2.1
          rw [hflag] at this
          cases this
      have hmm : (t.id, t.has_been_returned) ∈
          (updatedOf mdl solver st dets).map
            (fun t => (t.id, t.has_been_returned)) :=
        List.mem_map_of_mem _ hnotnew
      rw [updated_idflag] at hmm
      rcases List.mem_map.mp hmm with ⟨s, hs, hsid⟩
      rcases List.mem_map.mp hs with ⟨p, hp, rfl⟩
      rcases p with ⟨a, b⟩
      rcases survivorsOf_mem mdl st a b hp with ⟨t0, ht0, hpred, _⟩
      rw [Prod.mk.injEq] at hsid
      have hid0 : t0.id = i := by rw [← htid, ← hsid.1, ← hpred]; rfl
      have hfl0 : t0.has_been_returned = true := by
        rw [← hflag, ← hsid.2, ← hpred]; rfl
      refine ⟨⟨t0, ht0, hid0⟩, ?_, ⟨t0, ht0, hid0, hfl0⟩⟩
      intro hp2
      rcases (present_sortUpdate mdl solver st dets i).mp hp2 with
        ⟨t2, ht2, ht2id, ht2dead⟩
      have : t2 = t := List.inj_on_of_nodup_map
        (allTrackers_nodup mdl solver st dets hWF) ht2 ht (by rw [ht2id, htid])
      rw [this, hdead] at ht2dead
      cases ht2dead
  · rintro ⟨hpres, hnpres, hflag⟩
    rcases hflag with ⟨t0, ht0, hid0, hfl0⟩
    rcases trackers_fate mdl st t0 ht0 with hnan | ⟨b, hsurv⟩
    · apply (dis_sortUpdate mdl solver st dets _).mpr
      left
      refine ⟨(ktPredict mdl t0).1, hnan, hfl0, ?_⟩
      rw [← hid0]
      rfl
    · rcases surv_flag_to_allTrackers mdl solver st dets t0 ht0 b hsurv with
        ⟨t, ht, htid, htfl⟩
      cases hdead : deadB st.max_age t with
      | false =>
          exact absurd ((present_sortUpdate mdl solver st dets i).mpr
            ⟨t, ht, by rw [htid, hid0], hdead⟩) hnpres
      | true =>
          apply (dis_sortUpdate mdl solver st dets _).mpr
          right
          exact ⟨t, ht, hdead, by rw [htfl]; exact hfl0, by rw [htid, hid0]⟩

lemma removed_forever {K : Type} (mdl : KalmanModel K) (solver : Solver)
    (st0 : SortState K) (inputs : List (List Box)) (hWF0 : SortWF st0)
    (k i : ℕ) (hp : presentAt (stateAfter mdl solver st0 inputs k) i)
    (hnp : ¬ presentAt (stateAfter mdl solver st0 inputs (k + 1)) i) :
    ∀ l, k < l → ¬ presentAt (stateAfter mdl solver st0 inputs l) i := by
  intro l
  induction l with
  | zero => intro h; cases h
  | succ l ih =>
      intro hl
      rcases Nat.lt_succ_iff_lt_or_eq.mp hl with h1 | h2
      · intro hpres
        by_cases hll : l < inputs.length
        · rw [stateAfter_succ mdl solver st0 inputs l hll] at hpres
          rcases present_sortUpdate_origin mdl solver _ _ i hpres with h3 | h3
          · exact ih h1 h3
          · have hiC : i < (stateAfter mdl solver st0 inputs k).count :=
              presentAt_lt_count _ (stateAfter_WF mdl solver st0 inputs k hWF0) i hp
            have hmono := stateAfter_count_mono mdl solver st0 inputs k l
              (by omega)
            omega
        · have hstab : stateAfter mdl solver st0 inputs (l + 1) =
              stateAfter mdl solver st0 inputs l := by
            rw [stateAfter_stable mdl solver st0 inputs (l + 1) (by omega),
              stateAfter_stable mdl solver st0 inputs l (by omega)]
          rw [hstab] at hpres
          exact ih h1 hpres
      · rw [h2] at hnp
        exact hnp

/-- C1: along any run of one `Sort` instance, (1) `has_been_returned` is
monotone — a flagged id stays flagged while its track lives; (2) every id
in a disappeared-ids list was emitted as externally reportable at an
earlier-or-same call; (3) at the call where a track is removed, its id
appears in that call's disappeared-ids list if and only if it was emitted
at an earlier-or-same call; (4) a track removed while `has_been_returned`
is false never appears in any disappeared-ids list of the run. -/
theorem disappearance_iff_reported {K : Type} (mdl : KalmanModel K)
    (solver : Solver) (max_age min_hits : ℕ) (iou_threshold : ℚ) (c0 : ℕ)
    (inputs : List (List Box)) :
    (∀ k i,
      flaggedAt (stateAfter mdl solver (mkSort K max_age min_hits iou_threshold c0)
        inputs k) i →
      presentAt (stateAfter mdl solver (mkSort K max_age min_hits iou_threshold c0)
        inputs (k + 1)) i →
      flaggedAt (stateAfter mdl solver (mkSort K max_age min_hits iou_threshold c0)
        inputs (k + 1)) i) ∧
    (∀ k e,
      e ∈ disappearedAt (sortOutputs mdl solver
        (mkSort K max_age min_hits iou_threshold c0) inputs) k →
      ∃ j ≤ k, e ∈ emittedIdsAt (sortOutputs mdl solver
        (mkSort K max_age min_hits iou_threshold c0) inputs) j) ∧
    (∀ k i, k < inputs.length →
      ((i + 1 ∈ disappearedAt (sortOutputs mdl solver
          (mkSort K max_age min_hits iou_threshold c0) inputs) k) ↔
        (presentAt (stateAfter mdl solver
            (mkSort K max_age min_hits iou_threshold c0) inputs k) i ∧
          ¬ presentAt (stateAfter mdl solver
            (mkSort K max_age min_hits iou_threshold c0) inputs (k + 1)) i ∧
          ∃ j ≤ k, i + 1 ∈ emittedIdsAt (sortOutputs mdl solver
            (mkSort K max_age min_hits iou_threshold c0) inputs) j))) ∧
    (∀ k i,
      presentAt (stateAfter mdl solver (mkSort K max_age min_hits iou_threshold c0)
        inputs k) i →
      ¬ presentAt (stateAfter mdl solver (mkSort K max_age min_hits iou_threshold c0)
        inputs (k + 1)) i →
      ¬ flaggedAt (stateAfter mdl solver (mkSort K max_age min_hits iou_threshold c0)
        inputs k) i →
      ∀ m, i + 1 ∉ disappearedAt (sortOutputs mdl solver
        (mkSort K max_age min_hits iou_threshold c0) inputs) m) := by
  set st0 := mkSort K max_age min_hits iou_threshold c0 with hst0
  have h0 : st0.trackers = [] := rfl
  have hWF0 : SortWF st0 := SortWF_init max_age min_hits iou_threshold c0
  have hflagged_emitted : ∀ k i,
      flaggedAt (stateAfter mdl solver st0 inputs k) i →
      ∃ j < k, i + 1 ∈ emittedIdsAt (sortOutputs mdl solver st0 inputs) j := by
    intro k i hf
    rcases hf with ⟨t0, ht0, hid, hfl⟩
    rcases (flag_iff_emitted mdl solver st0 inputs h0 hWF0 k t0 ht0).mp hfl with
      ⟨j, hj, hej⟩
    exact ⟨j, hj, by rw [← hid]; exact hej⟩
  have hmono : ∀ k i,
      flaggedAt (stateAfter mdl solver st0 inputs k) i →
      presentAt (stateAfter mdl solver st0 inputs (k + 1)) i →
      flaggedAt (stateAfter mdl solver st0 inputs (k + 1)) i := by
    intro k i hflag hpres
    by_cases hk : k < inputs.length
    · rw [stateAfter_succ mdl solver st0 inputs k hk] at hpres ⊢
      set st := stateAfter mdl solver st0 inputs k with hstdef
      have hWF : SortWF st := stateAfter_WF mdl solver st0 inputs k hWF0
      rcases (present_sortUpdate mdl solver st _ i).mp hpres with
        ⟨t, ht, htid, hdead⟩
      apply (flagged_sortUpdate mdl solver st _ i).mpr
      refine ⟨t, ht, htid, hdead, ?_⟩
      have htflag : t.has_been_returned = true := by
        have hnotnew : t ∈ updatedOf mdl solver st (inputs.getD k []) := by
          unfold allTrackersOf at ht
          rcases List.mem_append.mp ht with h1 | h1
          · exact h1
          · have hge := (mkNewTrackers_mem mdl _ _ st.count t h1).2.2.1
            have hlt : i < st.count := by
              rcases hflag with ⟨t0, ht0, hid0, _⟩
              exact presentAt_lt_count st hWF i ⟨t0, ht0, hid0⟩
            omega
        have hmm : (t.id, t.has_been_returned) ∈
            (updatedOf mdl solver st (inputs.getD k [])).map
              (fun t => (t.id, t.has_been_returned)) :=
          List.mem_map_of_mem _ hnotnew
        rw [updated_idflag] at hmm
        rcases List.mem_map.mp hmm with ⟨s, hs, hsid⟩
        rcases List.mem_map.mp hs with ⟨p, hp2, rfl⟩
        rcases p with ⟨a, b⟩
        rcases survivorsOf_mem mdl st a b hp2 with ⟨t1, ht1, hpred, _⟩
        rw [Prod.mk.injEq] at hsid
        have hid1 : t1.id = t.id := by rw [← hsid.1, ← hpred]; rfl
        have hfl1 : t1.has_been_returned = t.has_been_returned := by
          rw [← hsid.2, ← hpred]; rfl
        rcases hflag with ⟨t0, ht0, hid0, hfl0⟩
        have : t0 = t1 := List.inj_on_of_nodup_map hWF.1 ht0 ht1
          (by rw [hid0, hid1, htid])
        rw [← hfl1, ← this]
        exact hfl0
      rw [htflag]
      rfl
    · have hstab : stateAfter mdl solver st0 inputs (k + 1) =
          stateAfter mdl solver st0 inputs k := by
        rw [stateAfter_stable mdl solver st0 inputs (k + 1) (by omega),
          stateAfter_stable mdl solver st0 inputs k (by omega)]
      rw [hstab]
      exact hflag
  refine ⟨hmono, ?_, ?_, ?_⟩
  · intro k e he
    by_cases hk : k < inputs.length
    · have hdis : disappearedAt (sortOutputs mdl solver st0 inputs) k =
          (sortUpdate mdl solver (stateAfter mdl solver st0 inputs k)
            (inputs.getD k [])).1.2 := by
        unfold disappearedAt
        rw [sortOutputs_getD mdl solver inputs st0 k hk]
      rw [hdis] at he
      set st := stateAfter mdl solver st0 inputs k with hstdef
      rcases (dis_sortUpdate mdl solver st _ e).mp he with
        ⟨t, ht, hflag, rfl⟩ | ⟨t, ht, hdead, hflag, rfl⟩
      · rcases nanDeadOf_mem mdl st t ht with ⟨t0, ht0, hpred, _⟩
        have hid0 : t0.id = t.id := by rw [← hpred]; rfl
        have hfl0 : t0.has_been_returned = true := by rw [← hflag, ← hpred]; rfl
        rcases (flag_iff_emitted mdl solver st0 inputs h0 hWF0 k t0 ht0).mp hfl0
          with ⟨j, hj, hej⟩
        exact ⟨j, by omega, by rw [← hid0]; exact hej⟩
      · have hnotnew : t ∈ updatedOf mdl solver st (inputs.getD k []) := by
          unfold allTrackersOf at ht
          rcases List.mem_append.mp ht with h1 | h1
          · exact h1
          · have := (mkNewTrackers_mem mdl _ _ st.count t h1).2.1
            rw [hflag] at this
            cases this
        have hmm : (t.id, t.has_been_returned) ∈
            (updatedOf mdl solver st (inputs.getD k [])).map
              (fun t => (t.id, t.has_been_returned)) :=
          List.mem_map_of_mem _ hnotnew
        rw [updated_idflag] at hmm
        rcases List.mem_map.mp hmm with ⟨s, hs, hsid⟩
        rcases List.mem_map.mp hs with ⟨p, hp2, rfl⟩
        rcases p with ⟨a, b⟩
        rcases survivorsOf_mem mdl st a b hp2 with ⟨t1, ht1, hpred, _⟩
        rw [Prod.mk.injEq] at hsid
        have hid1 : t1.id = t.id := by rw [← hsid.1, ← hpred]; rfl
        have hfl1 : t1.has_been_returned = true := by
          rw [← hflag, ← hsid.2, ← hpred]; rfl
        rcases (flag_iff_emitted mdl solver st0 inputs h0 hWF0 k t1 ht1).mp hfl1
          with ⟨j, hj, hej⟩
        exact ⟨j, by omega, by rw [← hid1]; exact hej⟩
    · rw [disappearedAt_empty_big mdl solver st0 inputs k (by omega)] at he
      cases he
  · intro k i hk
    constructor
    · intro hmem
      rcases (dis_char mdl solver st0 inputs hWF0 k hk i).mp hmem with
        ⟨hp, hnp, hfl⟩
      rcases hflagged_emitted k i hfl with ⟨j, hj, hej⟩
      exact ⟨hp, hnp, j, by omega, hej⟩
    · rintro ⟨hp, hnp, j, hj, hej⟩
      rcases Nat.lt_or_ge j k with hjk | hjk
      · have hfl : flaggedAt (stateAfter mdl solver st0 inputs k) i := by
          rcases hp with ⟨t0, ht0, hid0⟩
          refine ⟨t0, ht0, hid0, ?_⟩
          exact (flag_iff_emitted mdl solver st0 inputs h0 hWF0 k t0 ht0).mpr
            ⟨j, hjk, by rw [hid0]; exact hej⟩
        exact (dis_char mdl solver st0 inputs hWF0 k hk i).mpr ⟨hp, hnp, hfl⟩
      · have hjeq : j = k := by omega
        rw [hjeq] at hej
        unfold emittedIdsAt at hej
        rw [sortOutputs_getD mdl solver inputs st0 k hk] at hej
        rcases (ret_ids_sortUpdate mdl solver _ _ _).mp hej with
          ⟨te, hte, hemit, heq⟩
        have hteid : te.id = i := by omega
        have : presentAt (stateAfter mdl solver st0 inputs (k + 1)) i := by
          rw [stateAfter_succ mdl solver st0 inputs k hk]
          exact (present_sortUpdate mdl solver _ _ i).mpr
            ⟨te, hte, hteid, emit_not_dead _ _ _ te hemit⟩
        exact absurd this hnp
  · intro k i hp hnp hnf m hmem
    by_cases hm : m < inputs.length
    · rcases (dis_char mdl solver st0 inputs hWF0 m hm i).mp hmem with
        ⟨hpm, hnpm, hflm⟩
      rcases Nat.lt_trichotomy m k with h1 | h2 | h3
      · exact removed_forever mdl solver st0 inputs hWF0 m i hpm hnpm k h1 hp
      · rw [h2] at hflm
        exact hnf hflm
      · exact removed_forever mdl solver st0 inputs hWF0 k i hp hnp m h3 hpm
    · rw [disappearedAt_empty_big mdl solver st0 inputs m (by omega)] at hmem
      cases hmem

/-- A concrete Kalman behaviour (trivial filter state) used to evaluate the
tracker model on concrete runs. -/
def unitModel : KalmanModel Unit :=
  ⟨fun _ => (), fun _ => (), fun _ => some ⟨0, 0, 1, 1⟩, fun _ _ => (),
    fun _ => ⟨0, 0, 1, 1⟩⟩

/-- A concrete (degenerate) assignment solver for concrete runs that never
hit the solver branch. -/
def emptySolver : Solver := fun _ _ _ => []

/-- C1 witness: a two-call run (one detection, then none, with
`max_age = 0`) in which track id 1 is emitted at call 0, removed and
reported disappeared at call 1; the removal-iff conjunct is instantiated
there. -/
theorem disappearance_iff_reported_witness :
    (1 < ([[(⟨0, 0, 1, 1⟩ : Box)], []] : List (List Box)).length) ∧
      (0 + 1 ∈ disappearedAt (sortOutputs unitModel emptySolver
        (mkSort Unit 0 0 (1/2) 0) [[⟨0, 0, 1, 1⟩], []]) 1) ∧
      ((0 + 1 ∈ disappearedAt (sortOutputs unitModel emptySolver
          (mkSort Unit 0 0 (1/2) 0) [[⟨0, 0, 1, 1⟩], []]) 1) ↔
        (presentAt (stateAfter unitModel emptySolver
            (mkSort Unit 0 0 (1/2) 0) [[⟨0, 0, 1, 1⟩], []] 1) 0 ∧
          ¬ presentAt (stateAfter unitModel emptySolver
            (mkSort Unit 0 0 (1/2) 0) [[⟨0, 0, 1, 1⟩], []] (1 + 1)) 0 ∧
          ∃ j ≤ 1, 0 + 1 ∈ emittedIdsAt (sortOutputs unitModel emptySolver
            (mkSort Unit 0 0 (1/2) 0) [[⟨0, 0, 1, 1⟩], []]) j)) :=
  ⟨by decide, by decide,
    (disappearance_iff_reported unitModel emptySolver 0 0 (1/2) 0
      [[⟨0, 0, 1, 1⟩], []]).2.2.1 1 0 (by decide)⟩

/-! ## Association: fast path vs. optimal assignment (claim C7).

`linear_assignment` (lap.lapjv / scipy) is external; the spec describes it
as solving the optimal assignment minimising total cost `-iou_matrix`,
i.e. maximising total IOU.  `isOptimalAssignment` is the spec-modelled
predicate for its output, and `specAssignResult` follows the spec's words
for the demotion step applied to such an output. -/

/-- A one-to-one partial assignment between `nD` detections and `nT`
predictions. -/
def isMatching (nD nT : ℕ) (asg : List (ℕ × ℕ)) : Prop :=
  (∀ p ∈ asg, p.1 < nD ∧ p.2 < nT) ∧
    (asg.map Prod.fst).Nodup ∧ (asg.map Prod.snd).Nodup

/-- Total IOU collected by an assignment. -/
def sumIou (m : List (List ℚ)) (asg : List (ℕ × ℕ)) : ℚ :=
  (asg.map (matEntry m)).sum

/-- Modelled from the spec: `linear_assignment` returns a maximum-size
one-to-one assignment maximising total IOU (minimising total `-iou` cost). -/
def isOptimalAssignment (nD nT : ℕ) (m : List (List ℚ))
    (asg : List (ℕ × ℕ)) : Prop :=
  isMatching nD nT asg ∧ asg.length = min nD nT ∧
    ∀ other, isMatching nD nT other → other.length = min nD nT →
      sumIou m other ≤ sumIou m asg

/-- Modelled from the spec: demote every matched pair with IOU below the
threshold to unmatched detection / unmatched prediction, and collect the
indices the assignment leaves unmatched. -/
def specAssignResult (nD nT : ℕ) (m : List (List ℚ)) (τ : ℚ)
    (asg : List (ℕ × ℕ)) : AssocResult :=
  ⟨asg.filter fun p => ! decide (matEntry m p < τ),
    ((List.range nD).filter fun d => decide (d ∉ asg.map Prod.fst)) ++
      (asg.filter fun p => decide (matEntry m p < τ)).map Prod.fst,
    ((List.range nT).filter fun t => decide (t ∉ asg.map Prod.snd)) ++
      (asg.filter fun p => decide (matEntry m p < τ)).map Prod.snd⟩

/-- Equality of association results as sets (the claim compares the
returned triples as sets; the arrays' order is unspecified). -/
def AssocEquiv (r1 r2 : AssocResult) : Prop :=
  (∀ p, p ∈ r1.matched ↔ p ∈ r2.matched) ∧
  (∀ d, d ∈ r1.unmatched_dets ↔ d ∈ r2.unmatched_dets) ∧
  (∀ t, t ∈ r1.unmatched_trks ↔ t ∈ r2.unmatched_trks)

/-- Position `(d, t)` of the boolean mask `a` holds a one. -/
def maskAt (a : List (List Bool)) (d t : ℕ) : Prop :=
  ∃ row, a[d]? = some row ∧ row[t]? = some true

lemma maskAt_iff_getD (a : List (List Bool)) (d t : ℕ) :
    maskAt a d t ↔ (a.getD d []).getD t false = true := by
  rw [List.getD_eq_getElem?_getD a d [], List.getD_eq_getElem?_getD]
  unfold maskAt
  cases hd : a[d]? with
  | none =>
    simp only [Option.getD_none]
    constructor
    · rintro ⟨row, hr, _⟩
      cases hr
    · intro h
      simp at h
  | some row =>
    simp only [Option.getD_some]
    constructor
    · rintro ⟨row', hr, ht⟩
      obtain rfl : row = row' := Option.some.inj hr
      rw [ht]
      rfl
    · intro h
      refine ⟨row, rfl, ?_⟩
      cases hrt : row[t]? with
      | none => rw [hrt] at h; simp at h
      | some b => rw [hrt] at h; simp only [Option.getD_some] at h; rw [h]

instance (a : List (List Bool)) (d t : ℕ) : Decidable (maskAt a d t) :=
  decidable_of_iff _ (maskAt_iff_getD a d t).symm

/-- `wherePairs` lists exactly the positions of the ones of the mask. -/
lemma mem_wherePairs (a : List (List Bool)) (p : ℕ × ℕ) :
    p ∈ wherePairs a ↔ maskAt a p.1 p.2 := by
  unfold wherePairs maskAt
  rw [List.mem_flatten]
  constructor
  · rintro ⟨l, hl, hpl⟩
    rw [List.mem_map] at hl
    obtain ⟨dr, hdr, rfl⟩ := hl
    rw [List.mem_filterMap] at hpl
    obtain ⟨tb, htb, hsome⟩ := hpl
    by_cases hb : tb.2
    · rw [if_pos hb] at hsome
      have hp := Option.some.inj hsome
      rw [List.mem_enum_iff_getElem?] at hdr htb
      refine ⟨dr.2, ?_, ?_⟩
      · rw [← hp]
        exact hdr
      · rw [← hp]
        rw [hb] at htb
        exact htb
    · rw [if_neg hb] at hsome
      cases hsome
  · rintro ⟨row, hrow, htrue⟩
    refine ⟨row.enum.filterMap fun tb =>
        if tb.2 then some (p.1, tb.1) else none, ?_, ?_⟩
    · rw [List.mem_map]
      exact ⟨(p.1, row), List.mem_enum_iff_getElem?.mpr hrow, rfl⟩
    · rw [List.mem_filterMap]
      exact ⟨(p.2, true), List.mem_enum_iff_getElem?.mpr htrue, by simp⟩

/-- A boolean list counting exactly one `true` has a unique true position. -/
lemma count_true_eq_one {l : List Bool} (h : l.count true = 1) :
    ∃ t : ℕ, l[t]? = some true ∧ ∀ u : ℕ, l[u]? = some true → u = t := by
  induction l with
  | nil => simp at h
  | cons b bs ih =>
    cases b with
    | true =>
      have hz : bs.count true = 0 := by
        rw [List.count_cons] at h
        simpa using h
      have hnb : true ∉ bs := List.count_eq_zero.mp hz
      have h0 : (true :: bs)[0]? = some true := by simp
      refine ⟨0, h0, ?_⟩
      intro u hu
      cases u with
      | zero => rfl
      | succ v =>
        exfalso
        have hv : bs[v]? = some true := by simpa using hu
        obtain ⟨hlt, hget⟩ := List.getElem?_eq_some.mp hv
        have := List.getElem_mem hlt
        rw [hget] at this
        exact hnb this
    | false =>
      have h1 : bs.count true = 1 := by
        rw [List.count_cons] at h
        simpa using h
      obtain ⟨t, ht, huniq⟩ := ih h1
      have ht2 : (false :: bs)[t + 1]? = some true := by simpa using ht
      refine ⟨t + 1, ht2, ?_⟩
      intro u hu
      cases u with
      | zero => simp at hu
      | succ v =>
        have hv : bs[v]? = some true := by simpa using hu
        rw [huniq v hv]

/-- `maxNat` of a nonempty all-ones list is one. -/
lemma maxNat_all_one {l : List ℕ} (hne : l ≠ []) (h1 : ∀ c ∈ l, c = 1) :
    maxNat l = 1 := by
  induction l with
  | nil => cases hne rfl
  | cons c cs ih =>
    cases cs with
    | nil =>
      show max c 0 = 1
      rw [h1 c (by simp)]
      omega
    | cons d ds =>
      have hm : maxNat (d :: ds) = 1 :=
        ih (by simp) fun x hx => h1 x (List.mem_cons_of_mem c hx)
      show max c (maxNat (d :: ds)) = 1
      rw [hm, h1 c (by simp)]
      omega

lemma maskAt_bounds {a : List (List Bool)} {nT : ℕ}
    (hreg : ∀ row ∈ a, row.length = nT) {d t : ℕ} (h : maskAt a d t) :
    d < a.length ∧ t < nT := by
  obtain ⟨row, hr, ht⟩ := h
  obtain ⟨hd, hget⟩ := List.getElem?_eq_some.mp hr
  obtain ⟨ht2, _⟩ := List.getElem?_eq_some.mp ht
  have hrowmem : row ∈ a := by
    rw [← hget]
    exact List.getElem_mem hd
  rw [hreg row hrowmem] at ht2
  exact ⟨hd, ht2⟩

lemma maskAt_row_uniq {a : List (List Bool)}
    (hrow : ∀ c ∈ rowCounts a, c = 1) {d t t' : ℕ}
    (h : maskAt a d t) (h' : maskAt a d t') : t = t' := by
  obtain ⟨row, hr, ht⟩ := h
  obtain ⟨row', hr', ht'⟩ := h'
  rw [hr] at hr'
  obtain rfl : row = row' := Option.some.inj hr'
  have hrm : row ∈ a := by
    obtain ⟨hd, hget⟩ := List.getElem?_eq_some.mp hr
    rw [← hget]
    exact List.getElem_mem hd
  have hc : row.count true = 1 := by
    apply hrow
    rw [rowCounts, List.mem_map]
    exact ⟨row, hrm, rfl⟩
  obtain ⟨u, _, huniq⟩ := count_true_eq_one hc
  rw [huniq t ht, huniq t' ht']

lemma maskAt_row_ex {a : List (List Bool)}
    (hrow : ∀ c ∈ rowCounts a, c = 1) {d : ℕ} (hd : d < a.length) :
    ∃ t, maskAt a d t := by
  have hgd : a.getD d [] ∈ a := by
    rw [List.getD_eq_getElem?_getD a d [], List.getElem?_eq_getElem hd]
    exact List.getElem_mem hd
  have hc : (a.getD d []).count true = 1 := by
    apply hrow
    rw [rowCounts, List.mem_map]
    exact ⟨a.getD d [], hgd, rfl⟩
  obtain ⟨t, ht, _⟩ := count_true_eq_one hc
  refine ⟨t, a.getD d [], ?_, ht⟩
  rw [List.getD_eq_getElem?_getD a d [], List.getElem?_eq_getElem hd]
  rfl

lemma col_getElem (a : List (List Bool)) (t d : ℕ) :
    (a.map fun row => row.getD t false)[d]? = some true ↔ maskAt a d t := by
  unfold maskAt
  rw [List.getElem?_map]
  cases hd : a[d]? with
  | none => simp
  | some row =>
    simp only [Option.map_some']
    constructor
    · intro h
      have hb := Option.some.inj h
      refine ⟨row, rfl, ?_⟩
      rw [List.getD_eq_getElem?_getD] at hb
      cases hrt : row[t]? with
      | none => rw [hrt] at hb; simp at hb
      | some b => rw [hrt] at hb; simp only [Option.getD_some] at hb; rw [hb]
    · rintro ⟨row', hr, ht⟩
      obtain rfl : row = row' := Option.some.inj hr
      rw [List.getD_eq_getElem?_getD, ht]
      rfl

lemma maskAt_col_uniq {a : List (List Bool)} {nT : ℕ}
    (hcol : ∀ c ∈ colCounts nT a, c = 1)
    (hreg : ∀ row ∈ a, row.length = nT) {d d' t : ℕ}
    (h : maskAt a d t) (h' : maskAt a d' t) : d = d' := by
  have htn : t < nT := (maskAt_bounds hreg h).2
  have hc : (a.map fun row => row.getD t false).count true = 1 := by
    apply hcol
    rw [colCounts, List.mem_map]
    exact ⟨t, List.mem_range.mpr htn, rfl⟩
  obtain ⟨u, _, huniq⟩ := count_true_eq_one hc
  rw [huniq d ((col_getElem a t d).mpr h), huniq d' ((col_getElem a t d').mpr h')]

lemma maskAt_col_ex {a : List (List Bool)} {nT : ℕ}
    (hcol : ∀ c ∈ colCounts nT a, c = 1) {t : ℕ} (ht : t < nT) :
    ∃ d, maskAt a d t := by
  have hc : (a.map fun row => row.getD t false).count true = 1 := by
    apply hcol
    rw [colCounts, List.mem_map]
    exact ⟨t, List.mem_range.mpr ht, rfl⟩
  obtain ⟨d, hd, _⟩ := count_true_eq_one hc
  exact ⟨d, (col_getElem a t d).mp hd⟩

lemma maskAt_thresholdMask (m : List (List ℚ)) (τ : ℚ) (d t : ℕ) :
    maskAt (thresholdMask m τ) d t ↔
      d < m.length ∧ t < (m.getD d []).length ∧ τ < matEntry m (d, t) := by
  rw [maskAt_iff_getD]
  unfold thresholdMask matEntry
  by_cases hd : d < m.length
  case pos =>
    have hdm : (List.map (fun row => List.map (fun x => decide (τ < x)) row)
        m).getD d [] = List.map (fun x => decide (τ < x)) (m.getD d []) := by
      rw [List.getD_eq_getElem?_getD, List.getElem?_map,
        List.getElem?_eq_getElem hd, List.getD_eq_getElem?_getD m d [],
        List.getElem?_eq_getElem hd]
      rfl
    rw [hdm]
    by_cases ht : t < (m.getD d []).length
    case pos =>
      have htm : (List.map (fun x => decide (τ < x)) (m.getD d [])).getD t
          false = decide (τ < (m.getD d []).getD t 0) := by
        rw [List.getD_eq_getElem?_getD, List.getElem?_map,
          List.getElem?_eq_getElem ht, List.getD_eq_getElem?_getD _ t 0,
          List.getElem?_eq_getElem ht]
        rfl
      rw [htm]
      simp only [decide_eq_true_eq]
      constructor
      · intro hτ
        exact ⟨hd, ht, hτ⟩
      · rintro ⟨_, _, hτ⟩
        exact hτ
    case neg =>
      have htm : (List.map (fun x => decide (τ < x)) (m.getD d [])).getD t
          false = false := by
        rw [List.getD_eq_getElem?_getD, List.getElem?_map,
          List.getElem?_eq_none (by omega)]
        rfl
      rw [htm]
      constructor
      · intro h
        simp at h
      · rintro ⟨_, ht2, _⟩
        exact absurd ht2 ht
  case neg =>
    have hdm : (List.map (fun row => List.map (fun x => decide (τ < x)) row)
        m).getD d [] = [] := by
      rw [List.getD_eq_getElem?_getD,
        List.getElem?_eq_none (by simpa using le_of_not_lt hd)]
      rfl
    rw [hdm]
    constructor
    · intro h
      simp at h
    · rintro ⟨hd2, _, _⟩
      exact absurd hd2 hd

lemma maskFinset_card_row {a : List (List Bool)} {nD nT : ℕ}
    (hlen : a.length = nD)
    (hrow : ∀ c ∈ rowCounts a, c = 1)
    (hreg : ∀ row ∈ a, row.length = nT) :
    ((Finset.range nD ×ˢ Finset.range nT).filter
      fun p => maskAt a p.1 p.2).card = nD := by
  have hb : ((Finset.range nD ×ˢ Finset.range nT).filter
      fun p => maskAt a p.1 p.2).card = (Finset.range nD).card := by
    apply Finset.card_bij fun p _ => p.1
    · intro p hp
      rw [Finset.mem_filter, Finset.mem_product] at hp
      exact hp.1.1
    · intro p hp q hq hpq
      rw [Finset.mem_filter] at hp hq
      have hp2 := hp.2
      have hq2 := hq.2
      rw [hpq] at hp2
      exact Prod.ext hpq (maskAt_row_uniq hrow hp2 hq2)
    · intro d hd
      rw [Finset.mem_range] at hd
      obtain ⟨t, ht⟩ := maskAt_row_ex hrow (show d < a.length by omega)
      have hbb := maskAt_bounds hreg ht
      refine ⟨(d, t), ?_, rfl⟩
      rw [Finset.mem_filter, Finset.mem_product]
      exact ⟨⟨Finset.mem_range.mpr hd, Finset.mem_range.mpr hbb.2⟩, ht⟩
  rw [Finset.card_range] at hb
  exact hb

lemma maskFinset_card_col {a : List (List Bool)} {nD nT : ℕ}
    (hlen : a.length = nD)
    (hcol : ∀ c ∈ colCounts nT a, c = 1)
    (hreg : ∀ row ∈ a, row.length = nT) :
    ((Finset.range nD ×ˢ Finset.range nT).filter
      fun p => maskAt a p.1 p.2).card = nT := by
  have hb : ((Finset.range nD ×ˢ Finset.range nT).filter
      fun p => maskAt a p.1 p.2).card = (Finset.range nT).card := by
    apply Finset.card_bij fun p _ => p.2
    · intro p hp
      rw [Finset.mem_filter, Finset.mem_product] at hp
      exact hp.1.2
    · intro p hp q hq hpq
      rw [Finset.mem_filter] at hp hq
      have hp2 := hp.2
      have hq2 := hq.2
      rw [hpq] at hp2
      exact Prod.ext (maskAt_col_uniq hcol hreg hp2 hq2) hpq
    · intro t ht
      rw [Finset.mem_range] at ht
      obtain ⟨d, hd⟩ := maskAt_col_ex hcol ht
      have hbb := maskAt_bounds hreg hd
      refine ⟨(d, t), ?_, rfl⟩
      rw [Finset.mem_filter, Finset.mem_product]
      refine ⟨⟨Finset.mem_range.mpr ?_, Finset.mem_range.mpr ht⟩, hd⟩
      omega
  rw [Finset.card_range] at hb
  exact hb

/-- With nonempty inputs and the code's fast-path condition satisfied, the
association takes the fast path: its result is built from `wherePairs` of
the mask. -/
lemma associate_fast_eq (solver : Solver) (dets trks : List Box) (τ : ℚ)
    (hT : trks ≠ [])
    (h0 : 0 < min dets.length trks.length)
    (hfp : maxNat (rowCounts (thresholdMask (iou_batch dets trks) τ)) = 1 ∧
      maxNat (colCounts trks.length (thresholdMask (iou_batch dets trks) τ)) = 1) :
    associate_detections_to_trackers solver dets trks τ =
      ⟨(wherePairs (thresholdMask (iou_batch dets trks) τ)).filter fun p =>
          ! decide (matEntry (iou_batch dets trks) p < τ),
        ((List.range dets.length).filter fun d2 =>
          decide (d2 ∉ (wherePairs (thresholdMask (iou_batch dets trks) τ)).map
            Prod.fst)) ++
          ((wherePairs (thresholdMask (iou_batch dets trks) τ)).filter fun p =>
            decide (matEntry (iou_batch dets trks) p < τ)).map Prod.fst,
        ((List.range trks.length).filter fun t =>
          decide (t ∉ (wherePairs (thresholdMask (iou_batch dets trks) τ)).map
            Prod.snd)) ++
          ((wherePairs (thresholdMask (iou_batch dets trks) τ)).filter fun p =>
            decide (matEntry (iou_batch dets trks) p < τ)).map Prod.snd⟩ := by
  have h1 : trks.isEmpty = false := by
    cases trks with
    | nil => cases hT rfl
    | cons x xs => rfl
  rw [associate_detections_to_trackers, h1]
  simp only [Bool.false_eq_true, if_false, if_pos h0, if_pos hfp]

/-- C7 (amended): when each row AND each column of the thresholded IOU
matrix has exactly one entry above the threshold (the spec's perfect
one-to-one matching condition), the fast path is taken and its returned
triple equals, as sets, the triple obtained from any optimal assignment
followed by demotion of below-threshold pairs. -/
theorem fast_path_refines_optimal (solver : Solver) (dets trks : List Box)
    (τ : ℚ) (hD : dets ≠ []) (hT : trks ≠ [])
    (hrow : ∀ c ∈ rowCounts (thresholdMask (iou_batch dets trks) τ), c = 1)
    (hcol : ∀ c ∈ colCounts trks.length
      (thresholdMask (iou_batch dets trks) τ), c = 1)
    (asg : List (ℕ × ℕ))
    (hopt : isOptimalAssignment dets.length trks.length
      (iou_batch dets trks) asg) :
    AssocEquiv (associate_detections_to_trackers solver dets trks τ)
      (specAssignResult dets.length trks.length (iou_batch dets trks) τ
        asg) := by
  set m := iou_batch dets trks with hm
  set a := thresholdMask m τ with hA
  set nD := dets.length with hnD
  set nT := trks.length with hnT
  have hreg : ∀ row ∈ a, row.length = nT := by
    intro row hr
    rw [hA, hm, thresholdMask, List.mem_map] at hr
    obtain ⟨r0, hr0, rfl⟩ := hr
    rw [iou_batch, List.mem_map] at hr0
    obtain ⟨d0, _, rfl⟩ := hr0
    rw [List.length_map, List.length_map]
  have halen : a.length = nD := by
    have h2 : (thresholdMask (iou_batch dets trks) τ).length = dets.length := by
      simp [thresholdMask, iou_batch]
    rw [hA, hm, h2]
  have hregm : ∀ row ∈ m, row.length = nT := by
    intro row hr
    rw [hm, iou_batch, List.mem_map] at hr
    obtain ⟨d0, _, rfl⟩ := hr
    rw [List.length_map]
  have hmlen : m.length = nD := by
    rw [hm, iou_batch, List.length_map]
  have h0D : 0 < nD := by
    rw [hnD]
    exact List.length_pos.mpr hD
  have h0T : 0 < nT := by
    rw [hnT]
    exact List.length_pos.mpr hT
  have hmb : ∀ p : ℕ × ℕ, maskAt a p.1 p.2 → p.1 < nD ∧ p.2 < nT := by
    intro p h
    have h2 := maskAt_bounds hreg h
    omega
  have hentry : ∀ p : ℕ × ℕ, maskAt a p.1 p.2 → τ < matEntry m p := by
    intro p h
    rw [hA] at h
    exact ((maskAt_thresholdMask m τ p.1 p.2).mp h).2.2
  have hentry2 : ∀ p : ℕ × ℕ, p.1 < nD → p.2 < nT → ¬ maskAt a p.1 p.2 →
      matEntry m p ≤ τ := by
    intro p hd ht hn
    by_contra hgt
    push_neg at hgt
    apply hn
    rw [hA]
    apply (maskAt_thresholdMask m τ p.1 p.2).mpr
    refine ⟨by omega, ?_, hgt⟩
    have hrm : m.getD p.1 [] ∈ m := by
      rw [List.getD_eq_getElem?_getD m p.1 [],
        List.getElem?_eq_getElem (show p.1 < m.length by omega)]
      exact List.getElem_mem _
    rw [hregm _ hrm]
    exact ht
  set Fs := (Finset.range nD ×ˢ Finset.range nT).filter
      (fun p => maskAt a p.1 p.2) with hFs
  have hFmem : ∀ p : ℕ × ℕ, p ∈ Fs ↔ maskAt a p.1 p.2 := by
    intro p
    rw [hFs, Finset.mem_filter, Finset.mem_product]
    constructor
    · rintro ⟨_, h⟩
      exact h
    · intro h
      have h2 := hmb p h
      exact ⟨⟨Finset.mem_range.mpr h2.1, Finset.mem_range.mpr h2.2⟩, h⟩
  have hcard1 : Fs.card = nD := by
    rw [hFs]
    exact maskFinset_card_row halen hrow hreg
  have hcard2 : Fs.card = nT := by
    rw [hFs]
    exact maskFinset_card_col halen hcol hreg
  have hmin : min nD nT = nD := by omega
  unfold isOptimalAssignment isMatching at hopt
  obtain ⟨⟨hrange, hfstN, hsndN⟩, hlen, hmax⟩ := hopt
  have hFnodupl := Fs.nodup_toList
  have hFmatch : isMatching nD nT Fs.toList := by
    refine ⟨?_, ?_, ?_⟩
    · intro p hp
      exact hmb p ((hFmem p).mp (Finset.mem_toList.mp hp))
    · refine List.Nodup.map_on ?_ hFnodupl
      intro x hx y hy hxy
      have hxm := (hFmem x).mp (Finset.mem_toList.mp hx)
      have hym := (hFmem y).mp (Finset.mem_toList.mp hy)
      rw [hxy] at hxm
      exact Prod.ext hxy (maskAt_row_uniq hrow hxm hym)
    · refine List.Nodup.map_on ?_ hFnodupl
      intro x hx y hy hxy
      have hxm := (hFmem x).mp (Finset.mem_toList.mp hx)
      have hym := (hFmem y).mp (Finset.mem_toList.mp hy)
      rw [hxy] at hxm
      exact Prod.ext (maskAt_col_uniq hcol hreg hxm hym) hxy
  have hFlen : Fs.toList.length = min nD nT := by
    rw [Finset.length_toList, hcard1, hmin]
  have hFle : sumIou m Fs.toList ≤ sumIou m asg := hmax _ hFmatch hFlen
  have hasgN : asg.Nodup := List.Nodup.of_map _ hfstN
  have hAcard : asg.toFinset.card = nD := by
    rw [List.toFinset_card_of_nodup hasgN, hlen, hmin]
  have hsumA : sumIou m asg = ∑ p ∈ asg.toFinset, matEntry m p := by
    unfold sumIou
    exact (List.sum_toFinset _ hasgN).symm
  have hsumF : sumIou m Fs.toList = ∑ p ∈ Fs, matEntry m p := by
    unfold sumIou
    have h2 := List.sum_toFinset (matEntry m) hFnodupl
    rw [Finset.toList_toFinset] at h2
    exact h2.symm
  have hAFs : asg.toFinset = Fs := by
    by_contra hne
    have hsub : ¬ Fs ⊆ asg.toFinset := by
      intro hsub
      apply hne
      exact (Finset.eq_of_subset_of_card_le hsub (by omega)).symm
    have hFA : (Fs \ asg.toFinset).Nonempty := by
      rw [Finset.sdiff_nonempty]
      exact hsub
    have hc1 := Finset.card_sdiff_add_card_inter asg.toFinset Fs
    have hc2 := Finset.card_sdiff_add_card_inter Fs asg.toFinset
    have hinter : asg.toFinset ∩ Fs = Fs ∩ asg.toFinset :=
      Finset.inter_comm _ _
    have hcc : (asg.toFinset \ Fs).card = (Fs \ asg.toFinset).card := by
      rw [hinter] at hc1
      omega
    have hbound1 : ∑ p ∈ asg.toFinset \ Fs, matEntry m p ≤
        (asg.toFinset \ Fs).card • τ := by
      apply Finset.sum_le_card_nsmul
      intro p hp
      rw [Finset.mem_sdiff] at hp
      have hpa : p ∈ asg := List.mem_toFinset.mp hp.1
      have hb := hrange p hpa
      exact hentry2 p hb.1 hb.2 fun hmk => hp.2 ((hFmem p).mpr hmk)
    have hbound2 : (Fs \ asg.toFinset).card • τ <
        ∑ p ∈ Fs \ asg.toFinset, matEntry m p := by
      have h3 : ∑ _p ∈ Fs \ asg.toFinset, τ <
          ∑ p ∈ Fs \ asg.toFinset, matEntry m p := by
        apply Finset.sum_lt_sum_of_nonempty hFA
        intro p hp
        rw [Finset.mem_sdiff] at hp
        exact hentry p ((hFmem p).mp hp.1)
      rw [Finset.sum_const] at h3
      exact h3
    have hsplitA := Finset.sum_inter_add_sum_diff asg.toFinset Fs (matEntry m)
    have hsplitF := Finset.sum_inter_add_sum_diff Fs asg.toFinset (matEntry m)
    have hIeq : ∑ p ∈ asg.toFinset ∩ Fs, matEntry m p =
        ∑ p ∈ Fs ∩ asg.toFinset, matEntry m p := by rw [hinter]
    have hsmul : (asg.toFinset \ Fs).card • τ =
        (Fs \ asg.toFinset).card • τ := by rw [hcc]
    have hin : ∑ p ∈ asg.toFinset \ Fs, matEntry m p <
        ∑ p ∈ Fs \ asg.toFinset, matEntry m p :=
      lt_of_le_of_lt (le_trans hbound1 (le_of_eq hsmul)) hbound2
    rw [hsumF, hsumA] at hFle
    linarith [hsplitA, hsplitF, hIeq, hin, hFle]
  have hmem_asg : ∀ p : ℕ × ℕ, p ∈ asg ↔ maskAt a p.1 p.2 := by
    intro p
    rw [← List.mem_toFinset, hAFs, hFmem]
  have hfst_all : ∀ d, d < nD →
      d ∈ (wherePairs a).map Prod.fst ∧ d ∈ asg.map Prod.fst := by
    intro d hd
    obtain ⟨t, ht⟩ := maskAt_row_ex hrow (show d < a.length by omega)
    constructor
    · rw [List.mem_map]
      exact ⟨(d, t), (mem_wherePairs a (d, t)).mpr ht, rfl⟩
    · rw [List.mem_map]
      exact ⟨(d, t), (hmem_asg (d, t)).mpr ht, rfl⟩
  have hsnd_all : ∀ t, t < nT →
      t ∈ (wherePairs a).map Prod.snd ∧ t ∈ asg.map Prod.snd := by
    intro t ht
    obtain ⟨d, hd⟩ := maskAt_col_ex hcol ht
    constructor
    · rw [List.mem_map]
      exact ⟨(d, t), (mem_wherePairs a (d, t)).mpr hd, rfl⟩
    · rw [List.mem_map]
      exact ⟨(d, t), (hmem_asg (d, t)).mpr hd, rfl⟩
  have hnodemF : ∀ p ∈ wherePairs a, ¬ (matEntry m p < τ) := by
    intro p hp
    exact lt_asymm (hentry p ((mem_wherePairs a p).mp hp))
  have hnodemA : ∀ p ∈ asg, ¬ (matEntry m p < τ) := by
    intro p hp
    exact lt_asymm (hentry p ((hmem_asg p).mp hp))
  have hfp : maxNat (rowCounts a) = 1 ∧ maxNat (colCounts nT a) = 1 := by
    constructor
    · refine maxNat_all_one ?_ hrow
      intro hnil
      have h2 : (rowCounts a).length = a.length := by simp [rowCounts]
      rw [hnil] at h2
      simp at h2
      omega
    · refine maxNat_all_one ?_ hcol
      intro hnil
      have h2 : (colCounts nT a).length = nT := by simp [colCounts]
      rw [hnil] at h2
      simp at h2
      omega
  rw [associate_fast_eq solver dets trks τ hT (by omega) (by
    rw [← hm, ← hA, ← hnT]
    exact hfp)]
  rw [← hm, ← hA, ← hnD, ← hnT]
  unfold specAssignResult AssocEquiv
  dsimp only
  refine ⟨?_, ?_, ?_⟩
  · intro p
    simp only [List.mem_filter, mem_wherePairs, hmem_asg]
  · intro d
    apply iff_of_false
    · intro hmem
      rcases List.mem_append.mp hmem with hmem | hmem
      · rw [List.mem_filter, List.mem_range] at hmem
        obtain ⟨hdr, hdec⟩ := hmem
        rw [decide_eq_true_eq] at hdec
        exact hdec (hfst_all d hdr).1
      · rw [List.mem_map] at hmem
        obtain ⟨p, hp, hpd⟩ := hmem
        rw [List.mem_filter, decide_eq_true_eq] at hp
        exact hnodemF p hp.1 hp.2
    · intro hmem
      rcases List.mem_append.mp hmem with hmem | hmem
      · rw [List.mem_filter, List.mem_range] at hmem
        obtain ⟨hdr, hdec⟩ := hmem
        rw [decide_eq_true_eq] at hdec
        exact hdec (hfst_all d hdr).2
      · rw [List.mem_map] at hmem
        obtain ⟨p, hp, hpd⟩ := hmem
        rw [List.mem_filter, decide_eq_true_eq] at hp
        exact hnodemA p hp.1 hp.2
  · intro t
    apply iff_of_false
    · intro hmem
      rcases List.mem_append.mp hmem with hmem | hmem
      · rw [List.mem_filter, List.mem_range] at hmem
        obtain ⟨htr, hdec⟩ := hmem
        rw [decide_eq_true_eq] at hdec
        exact hdec (hsnd_all t htr).1
      · rw [List.mem_map] at hmem
        obtain ⟨p, hp, hpt⟩ := hmem
        rw [List.mem_filter, decide_eq_true_eq] at hp
        exact hnodemF p hp.1 hp.2
    · intro hmem
      rcases List.mem_append.mp hmem with hmem | hmem
      · rw [List.mem_filter, List.mem_range] at hmem
        obtain ⟨htr, hdec⟩ := hmem
        rw [decide_eq_true_eq] at hdec
        exact hdec (hsnd_all t htr).2
      · rw [List.mem_map] at hmem
        obtain ⟨p, hp, hpt⟩ := hmem
        rw [List.mem_filter, decide_eq_true_eq] at hp
        exact hnodemA p hp.1 hp.2

/-- Detections for the C7 counterexample. -/
def cexDets : List Box := [⟨0, 0, 100, 100⟩, ⟨110, 0, 210, 100⟩]

/-- Predicted boxes for the C7 counterexample.  The IOU matrix against
`cexDets` is `[[1/3, 1/4], [1/4, 0]]`; with threshold `3/10` the mask is
`[[1, 0], [0, 0]]`, whose row and column maxima equal 1 (the code's
fast-path condition) although row 1 and column 1 have no entry above the
threshold. -/
def cexTrks : List Box := [⟨50, 0, 150, 100⟩, ⟨0, 60, 100, 160⟩]

/-- C7 counterexample: the code's fast-path condition (`max == 1` on both
axes of the mask) holds for this input, and the fast path keeps the
matched pair `(0,0)`, yet every optimal assignment is the anti-diagonal
`{(0,1), (1,0)}` (total IOU 1/2 beats the diagonal's 1/3), which the
demotion step empties entirely — so the fast-path triple differs, as
sets, from the optimal-then-demote triple, for every solver and every
optimal assignment. -/
theorem fast_path_refines_optimal_counterexample :
    (maxNat (rowCounts (thresholdMask (iou_batch cexDets cexTrks)
        (3/10))) = 1 ∧
      maxNat (colCounts cexTrks.length (thresholdMask
        (iou_batch cexDets cexTrks) (3/10))) = 1) ∧
    ∀ (solver : Solver) (asg : List (ℕ × ℕ)),
      isOptimalAssignment cexDets.length cexTrks.length
        (iou_batch cexDets cexTrks) asg →
      ¬ AssocEquiv
        (associate_detections_to_trackers solver cexDets cexTrks (3/10))
        (specAssignResult cexDets.length cexTrks.length
          (iou_batch cexDets cexTrks) (3/10) asg) := by
  have hmv : iou_batch cexDets cexTrks = [[1/3, 1/4], [1/4, 0]] := by
    norm_num [iou_batch, cexDets, cexTrks, iouPair, Box.area, max_def,
      min_def]
  have hmask : thresholdMask [[1/3, 1/4], [1/4, 0]] (3/10 : ℚ) =
      [[true, false], [false, false]] := by
    norm_num [thresholdMask]
  have hwp : wherePairs [[true, false], [false, false]] = [(0, 0)] := by
    decide
  have e00 : matEntry [[1/3, 1/4], [1/4, 0]] (0, 0) = 1/3 := rfl
  have e01 : matEntry [[1/3, 1/4], [1/4, 0]] (0, 1) = 1/4 := rfl
  have e10 : matEntry [[1/3, 1/4], [1/4, 0]] (1, 0) = 1/4 := rfl
  have e11 : matEntry [[1/3, 1/4], [1/4, 0]] (1, 1) = 0 := rfl
  have hv1 : sumIou [[1/3, 1/4], [1/4, 0]] [(0, 1), (1, 0)] = 1/2 := by
    simp only [sumIou, List.map_cons, List.map_nil, List.sum_cons,
      List.sum_nil, e01, e10]
    norm_num
  have hv2 : sumIou [[1/3, 1/4], [1/4, 0]] [((0 : ℕ), (0 : ℕ)),
      ((1 : ℕ), (1 : ℕ))] = 1/3 := by
    simp only [sumIou, List.map_cons, List.map_nil, List.sum_cons,
      List.sum_nil, e00, e11]
    norm_num
  have hv3 : sumIou [[1/3, 1/4], [1/4, 0]] [((1 : ℕ), (1 : ℕ)),
      ((0 : ℕ), (0 : ℕ))] = 1/3 := by
    simp only [sumIou, List.map_cons, List.map_nil, List.sum_cons,
      List.sum_nil, e00, e11]
    norm_num
  refine ⟨⟨?_, ?_⟩, ?_⟩
  · rw [hmv, hmask]
    decide
  · rw [hmv, hmask]
    decide
  intro solver asg hopt hequiv
  rw [hmv] at hopt
  unfold isOptimalAssignment isMatching at hopt
  obtain ⟨⟨hrange, hfstN, hsndN⟩, hlen, hmax⟩ := hopt
  have hlen2 : asg.length = 2 := by
    rw [hlen]
    decide
  obtain ⟨p, q, rfl⟩ := List.length_eq_two.mp hlen2
  have hp := hrange p (by simp)
  have hq := hrange q (by simp)
  have hDl : cexDets.length = 2 := rfl
  have hTl : cexTrks.length = 2 := rfl
  rw [hDl, hTl] at hp hq
  have hfstN2 : ([p.1, q.1] : List ℕ).Nodup := hfstN
  have hsndN2 : ([p.2, q.2] : List ℕ).Nodup := hsndN
  have hpq1 : p.1 ≠ q.1 := by
    intro h
    have h2 := (List.nodup_cons.mp hfstN2).1
    simp [h] at h2
  have hpq2 : p.2 ≠ q.2 := by
    intro h
    have h2 := (List.nodup_cons.mp hsndN2).1
    simp [h] at h2
  have hanti := hmax [(0, 1), (1, 0)]
    (by refine ⟨?_, ?_, ?_⟩ <;> decide) (by decide)
  rw [hv1] at hanti
  have h00 : ((0 : ℕ), (0 : ℕ)) ∉ [p, q] := by
    intro hmem
    have hor : ((0 : ℕ), (0 : ℕ)) = p ∨ ((0 : ℕ), (0 : ℕ)) = q := by
      simpa using hmem
    rcases hor with hP | hQ
    · have hp1 : p.1 = 0 := by rw [← hP]
      have hp2 : p.2 = 0 := by rw [← hP]
      rw [hp1] at hpq1
      rw [hp2] at hpq2
      have hq1 : q.1 = 1 := by omega
      have hq2 : q.2 = 1 := by omega
      have hqv : q = ((1 : ℕ), (1 : ℕ)) := by
        rw [Prod.ext_iff]
        exact ⟨hq1, hq2⟩
      rw [← hP, hqv, hv2] at hanti
      norm_num at hanti
    · have hq1 : q.1 = 0 := by rw [← hQ]
      have hq2 : q.2 = 0 := by rw [← hQ]
      rw [hq1] at hpq1
      rw [hq2] at hpq2
      have hp1 : p.1 = 1 := by omega
      have hp2 : p.2 = 1 := by omega
      have hpv : p = ((1 : ℕ), (1 : ℕ)) := by
        rw [Prod.ext_iff]
        exact ⟨hp1, hp2⟩
      rw [← hQ, hpv, hv3] at hanti
      norm_num at hanti
  obtain ⟨hmatched, _, _⟩ := hequiv
  have hL : ((0 : ℕ), (0 : ℕ)) ∈
      (associate_detections_to_trackers solver cexDets cexTrks
        (3/10)).matched := by
    rw [associate_fast_eq solver cexDets cexTrks (3/10) (by decide)
      (by decide) ⟨by rw [hmv, hmask]; decide, by rw [hmv, hmask]; decide⟩]
    dsimp only
    rw [hmv, hmask, hwp]
    apply List.mem_filter.mpr
    refine ⟨by simp, ?_⟩
    simp only [e00]
    norm_num
  have hR := (hmatched ((0 : ℕ), (0 : ℕ))).mp hL
  have hmem2 : ((0 : ℕ), (0 : ℕ)) ∈ [p, q] := by
    have h2 : (specAssignResult cexDets.length cexTrks.length
        (iou_batch cexDets cexTrks) (3/10) [p, q]).matched =
        [p, q].filter fun r =>
          ! decide (matEntry (iou_batch cexDets cexTrks) r < 3/10) := rfl
    rw [h2] at hR
    exact (List.mem_filter.mp hR).1
  exact h00 hmem2

/-- A single box used for the C7 witness: IOU of the box with itself is 1. -/
def witBoxes : List Box := [⟨0, 0, 2, 2⟩]

/-- The unique optimal assignment on the 1×1 witness instance. -/
def witAsg : List (ℕ × ℕ) := [(0, 0)]

/-- C7 witness: on the 1×1 instance (one detection and one prediction with
IOU 1, threshold 1/2) the amended hypotheses hold, `[(0,0)]` is an optimal
assignment, and the fast-path triple agrees with the spec's
optimal-then-demote triple. -/
theorem fast_path_refines_optimal_witness :
    (witBoxes ≠ [] ∧ witBoxes ≠ [] ∧
      (∀ c ∈ rowCounts (thresholdMask (iou_batch witBoxes witBoxes) (1/2)),
        c = 1) ∧
      (∀ c ∈ colCounts witBoxes.length
        (thresholdMask (iou_batch witBoxes witBoxes) (1/2)), c = 1) ∧
      isOptimalAssignment witBoxes.length witBoxes.length
        (iou_batch witBoxes witBoxes) witAsg) ∧
    AssocEquiv
      (associate_detections_to_trackers emptySolver witBoxes witBoxes (1/2))
      (specAssignResult witBoxes.length witBoxes.length
        (iou_batch witBoxes witBoxes) (1/2) witAsg) := by
  have hm1 : iou_batch witBoxes witBoxes = [[1]] := by
    norm_num [iou_batch, witBoxes, iouPair, Box.area, max_def, min_def]
  have hmask1 : thresholdMask [[1]] (1/2 : ℚ) = [[true]] := by
    norm_num [thresholdMask]
  have hrow : ∀ c ∈ rowCounts (thresholdMask (iou_batch witBoxes witBoxes)
      (1/2)), c = 1 := by
    intro c hc
    rw [hm1, hmask1] at hc
    have h2 : rowCounts [[true]] = [1] := by decide
    rw [h2, List.mem_singleton] at hc
    exact hc
  have hcol : ∀ c ∈ colCounts witBoxes.length
      (thresholdMask (iou_batch witBoxes witBoxes) (1/2)), c = 1 := by
    intro c hc
    rw [hm1, hmask1] at hc
    have h2 : colCounts witBoxes.length [[true]] = [1] := by decide
    rw [h2, List.mem_singleton] at hc
    exact hc
  have hopt : isOptimalAssignment witBoxes.length witBoxes.length
      (iou_batch witBoxes witBoxes) witAsg := by
    refine ⟨⟨by decide, by decide, by decide⟩, by decide, ?_⟩
    intro other hm hl
    have hl1 : other.length = 1 := by
      rw [hl]
      decide
    obtain ⟨r, rfl⟩ := List.length_eq_one.mp hl1
    obtain ⟨hmb2, _, _⟩ := hm
    have hr := hmb2 r (by simp)
    have hrv : r = ((0 : ℕ), (0 : ℕ)) := by
      have hb1 : witBoxes.length = 1 := by decide
      rw [hb1] at hr
      rw [Prod.ext_iff]
      constructor <;> omega
    have hwa : witAsg = [((0 : ℕ), (0 : ℕ))] := rfl
    rw [hrv, hwa]
  exact ⟨⟨by decide, by decide, hrow, hcol, hopt⟩,
    fast_path_refines_optimal emptySolver witBoxes witBoxes (1/2)
      (by decide) (by decide) hrow hcol witAsg hopt⟩
